import Mathlib

/-!
Verification of the profitability-driven performance inliner
(`lib/SILOptimizer/Transforms/PerformanceInliner.cpp`).

The development is a shallow embedding of the pass: the IR surface it
queries (functions, blocks, instructions, values), the `ConstantTracker`
simulation, terminator folding (`getTakenBlock`), the eligibility filter
(`getEligibleFunction`), the profitability engine (`isProfitableToInline`
and `isProfitableInColdBlock`), the call-site collector
(`collectAppliesToInline`) and the inline driver
(`inlineCallsIntoFunction`).  External collaborators of the pass
(per-opcode cost table, constant-folding arithmetic, dominance / loop /
cold-edge analyses, the type lattice used by checked casts) are taken as
inputs, mirroring the pass's use of them as opaque services; loops of the
source are embedded as fuel-indexed recursions.
-/

set_option maxRecDepth 40000

namespace PerfInliner

/-! ## IR data model -/

/-- An SSA value: the result of an instruction, a function argument, or a
basic-block argument. -/
inductive Value where
  | inst (id : Nat)
  | arg (fn : Nat) (idx : Nat)
  | blockArg (bb : Nat) (idx : Nat)
deriving DecidableEq

/-- Classification of a `builtin` operation, matching the groups that
`ConstantTracker::getBuiltinConst` distinguishes.  The concrete folding
semantics of each group is an external collaborator (`ConstantFolding`)
and lives in `Env`. -/
inductive BuiltinOp where
  | binaryPredicate (tag : Nat)
  | overflowArith (tag : Nat)
  | divLike (tag : Nat)
  | bitOp (tag : Nat)
  | castOp (tag : Nat)
  | otherOp (tag : Nat)
deriving DecidableEq

/-- The instruction kinds the pass inspects; everything else is `other`.
`papply` is the closure-construction instruction (partial application);
`objProj`/`addrProj` are the member-extraction projections on objects and
addresses; `aggregate` is struct/tuple construction. -/
inductive InstrKind where
  | intLit (value : Int)
  | builtin (op : BuiltinOp) (args : List Value)
  | load (addr : Value)
  | store (src : Value) (addr : Value)
  | copyAddr (src : Value) (dest : Value) (isTakeOfSrc : Bool)
  | apply (callee : Value) (args : List Value) (hasSubs : Bool)
  | functionRef (fn : Nat)
  | papply (callee : Value)
  | thinToThick (operand : Value)
  | enumInst (element : Nat)
  | upcast (operand : Value)
  | objProj (operand : Value) (field : Nat)
  | addrProj (operand : Value) (field : Nat)
  | aggregate (elems : List Value)
  | other (tag : Nat)
deriving DecidableEq

/-- An instruction: a stable identity, the function containing it, and a
kind. -/
structure Instruction where
  id : Nat
  fn : Nat
  kind : InstrKind
deriving DecidableEq

/-- A block terminator.  `checkedCastBr` carries the target type of the
cast; types are opaque naturals interpreted by `Env`. -/
inductive Terminator where
  | condBr (cond : Value) (trueBB falseBB : Nat)
  | switchValue (operand : Value) (cases : List (Value × Nat)) (defaultBB : Option Nat)
  | switchEnum (operand : Value) (cases : List (Nat × Nat)) (defaultBB : Option Nat)
  | checkedCastBr (operand : Value) (castType : Nat) (successBB failureBB : Nat)
  | br (dest : Nat)
  | retTerm
deriving DecidableEq

/-- A basic block: body instructions in order, a terminator, and the
block's CFG predecessor list (the IR query behind
`getSinglePredecessor`). -/
structure BasicBlock where
  id : Nat
  instrs : List Instruction
  term : Terminator
  preds : List Nat
deriving DecidableEq

/-- Inlining strategy attribute of a function. -/
inductive InlineStrategy where
  | alwaysInline
  | noInline
  | inlineDefault
deriving DecidableEq

/-- A SIL function with the attributes the inliner queries.  `isExtDecl`
models `isExternalDeclaration`; `mayBindDynamicSelf` models the result of
`computeMayBindDynamicSelf` (an external analysis) as an attribute. -/
structure SILFunction where
  id : Nat
  blocks : List BasicBlock
  inlineStrategy : InlineStrategy
  isThunk : Bool
  shouldOptimize : Bool
  isFragile : Bool
  hasSemanticsAttrs : Bool
  hasEffectsKind : Bool
  hasAvailabilitySemantics : Bool
  isGlobalInit : Bool
  isExtDecl : Bool
  mayBindDynamicSelf : Bool
deriving DecidableEq

/-- A program: the functions the module contains. -/
structure Program where
  funcs : List SILFunction
deriving DecidableEq

/-- Look up a function by identity. -/
def findFunc (P : Program) (f : Nat) : Option SILFunction :=
  P.funcs.find? fun F => F.id = f

/-- Look up an instruction by identity (SSA use-def query). -/
def findInstr (P : Program) (i : Nat) : Option Instruction :=
  (P.funcs.flatMap fun F => F.blocks.flatMap fun b => b.instrs).find? fun I => I.id = i

/-- Modelled from the spec: the external collaborators of the pass.
`instCost`/`termCost` are the opaque per-opcode normal-mode cost table
(`instructionInlineCost`); `fold*` are the constant-folding services
(`constantFoldComparison` etc.); `typeOfValue`, `isExactSuperclassOf`
and `isBindableToSuperclassOf` are the type queries used by
checked-cast folding. -/
structure Env where
  instCost : Instruction → Nat
  termCost : Terminator → Nat
  foldBinaryPredicate : Nat → Int → Int → Int
  foldOverflowArith : Nat → Int → Int → Int
  foldDivLike : Nat → Int → Int → Int
  foldBitOp : Nat → Int → Int → Int
  foldCastOp : Nat → Int → Int
  typeOfValue : Value → Nat
  isExactSuperclassOf : Nat → Nat → Bool
  isBindableToSuperclassOf : Nat → Nat → Bool

/-- Modelled from the spec: the analysis providers.  `domParent F b` is
the immediate dominator-tree parent of block `b` in function `F` (the
dominance provider), `loopDepth` the natural-loop provider, `isSlowPath`
the cold-edge classifier. -/
structure Analyses where
  domParent : Nat → Nat → Option Nat
  loopDepth : Nat → Nat → Nat
  isSlowPath : Nat → Nat → Nat → Bool

/-- Which specially-attributed callees the current phase skips. -/
inductive InlineSelection where
  | everything
  | noGlobalInit
  | noSemanticsAndGlobalInit
deriving DecidableEq

/-- Pass configuration: the `-sil-inline-threshold` override, the
`-sil-inline-test-threshold` switch, and the phase selection. -/
structure Config where
  inlineCostThreshold : Int
  testThreshold : Int
  whatToInline : InlineSelection
deriving DecidableEq

/-! ## Cost-model constants -/

/-- Benefit of removing the call overhead. -/
def RemovedCallBenefit : Nat := 80

/-- Benefit when a terminator condition gets constant due to inlining. -/
def ConstTerminatorBenefit : Nat := 2

/-- Benefit when the callee operand of an apply gets constant. -/
def ConstCalleeBenefit : Nat := 150

/-- Additional benefit for each loop level. -/
def LoopBenefitFactor : Nat := 40

/-- Cost level up to which a function can be inlined without increasing
code size. -/
def TrivialFunctionThreshold : Nat := 20

/-- Denominator of the caller-block decay term. -/
def BlockLimitDenominator : Nat := 10000

/-- Multiplicity ceiling for call sites of one callee in one caller. -/
def CallsToCalleeThreshold : Nat := 1024

/-! ## Threshold arithmetic

The decay computation runs on C++ `unsigned` (32-bit) values; `u32`
makes the wraparound of each multiplication explicit. -/

/-- Truncation to 32-bit unsigned arithmetic. -/
def u32 (n : Nat) : Nat := n % 4294967296

/-- The cubic decay term
`NumCallerBlocks * NumCallerBlocks / BlockLimitDenominator *
 NumCallerBlocks / BlockLimitDenominator`, with each multiplication
performed in 32-bit unsigned arithmetic as in the source. -/
def blockMinus (n : Nat) : Nat :=
  u32 (u32 (n * n) / BlockLimitDenominator * n) / BlockLimitDenominator

/-- The non-test, non-thunk threshold: `Benefit` reduced by `blockMinus`,
floored at `TrivialFunctionThreshold`. -/
def normalThreshold (benefit n : Nat) : Nat :=
  if benefit > blockMinus n + TrivialFunctionThreshold then benefit - blockMinus n
  else TrivialFunctionThreshold

/-- Threshold selection at the end of `isProfitableToInline`: test-mode
override, thunk ceiling, or the decaying default. -/
def computeThreshold (testThr : Int) (callerThunk : Bool) (benefit n : Nat) : Nat :=
  if testThr ≥ 0 then testThr.toNat
  else if callerThunk then TrivialFunctionThreshold
  else normalThreshold benefit n

/-! ## Cost model -/

/-- The simplified test-mode cost model: only builtin instructions cost
(exactly) 1. -/
def testCost (I : Instruction) : Nat :=
  match I.kind with
  | .builtin _ _ => 1
  | _ => 0

/-- A block element as iterated by `for (SILInstruction &I : *block)`:
a body instruction or the terminator. -/
def blockItems (b : BasicBlock) : List (Sum Instruction Terminator) :=
  b.instrs.map Sum.inl ++ [Sum.inr b.term]

/-- Cost of one block element under the selected cost model (test mode
or the regular `instructionInlineCost` table).  Terminators are not
builtins, so their test-mode cost is 0. -/
def itemCost (env : Env) (testMode : Bool) : Sum Instruction Terminator → Nat
  | .inl I => if testMode then testCost I else env.instCost I
  | .inr t => if testMode then 0 else env.termCost t

/-- All elements of a callee, block by block in function order (the
unpruned iteration of `isProfitableInColdBlock`). -/
def calleeItems (F : SILFunction) : List (Sum Instruction Terminator) :=
  F.blocks.flatMap blockItems

/-! ## Constant estimation (`IntConst`, `ConstantTracker`) -/

/-- Result of integer constant estimation: the value, a validity flag,
and the provenance flag distinguishing caller-supplied constants. -/
structure IntConst where
  value : Int
  isValid : Bool
  isFromCaller : Bool
deriving DecidableEq

/-- The default-constructed (invalid) `IntConst`. -/
def IntConst.invalid : IntConst := ⟨0, false, false⟩

/-- The mutable state of one `ConstantTracker`: the load→store link
table, the per-block memory content table, and the builtin constant
cache.  All three are association lists with most-recent entry first
(overwrite-on-insert lookup semantics of `DenseMap`). -/
structure TrackerState where
  links : List (Nat × Nat)
  memoryContent : List (Value × Nat)
  constCache : List (Nat × IntConst)
deriving DecidableEq

/-- The empty tracker state. -/
def emptyTrackerState : TrackerState := ⟨[], [], []⟩

/-- Association-list lookup on `Nat` keys. -/
def alookupN {β : Type} : List (Nat × β) → Nat → Option β
  | [], _ => none
  | (k, v) :: rest, k' => if k = k' then some v else alookupN rest k'

/-- Association-list lookup on `Value` keys. -/
def alookupV {β : Type} : List (Value × β) → Value → Option β
  | [], _ => none
  | (k, v) :: rest, k' => if k = k' then some v else alookupV rest k'

/-- A `ConstantTracker`: either the top-level tracker of a caller, or a
callee tracker chained to the caller's tracker through the apply site
under analysis. -/
inductive Tracker where
  | top (F : Nat) (st : TrackerState)
  | chained (F : Nat) (st : TrackerState) (ai : Instruction) (caller : Tracker)
deriving DecidableEq

/-- The function tracked by this tracker. -/
def Tracker.F : Tracker → Nat
  | .top f _ => f
  | .chained f _ _ _ => f

/-- The tracker's own state. -/
def Tracker.st : Tracker → TrackerState
  | .top _ s => s
  | .chained _ s _ _ => s

/-- Replace the tracker's own state. -/
def Tracker.setSt : Tracker → TrackerState → Tracker
  | .top f _, s => .top f s
  | .chained f _ ai c, s => .chained f s ai c

/-- Source `beginBlock`: the memory-content table only survives a single
block. -/
def trackerBeginBlock (tr : Tracker) : Tracker :=
  tr.setSt ⟨tr.st.links, [], tr.st.constCache⟩

/-- The argument list of an apply instruction. -/
def applyArgs (I : Instruction) : List Value :=
  match I.kind with
  | .apply _ args _ => args
  | _ => []

/-- Source `getParam`: the actual argument in the caller for a function
argument of the tracked (callee) function, available only on a chained
tracker. -/
def getParam (tr : Tracker) (v : Value) : Option Value :=
  match v, tr with
  | .arg f idx, .chained tf _ ai _ => if f = tf then (applyArgs ai).get? idx else none
  | _, _ => none

/-- The address-projection structure of a value, if any. -/
def addrProjOf (P : Program) (v : Value) : Option (Value × Nat) :=
  match v with
  | .inst i =>
    match findInstr P i with
    | some I =>
      match I.kind with
      | .addrProj op field => some (op, field)
      | _ => none
    | none => none
  | _ => none

/-- Source `scanProjections`: strip a chain of address projections (collecting
them in encounter order, outermost first) and follow function arguments
into the caller; returns the base address and the collected
projections. -/
def scanProjections (P : Program) (tr : Tracker) : Nat → Value → Value × List Nat
  | 0, addr => (addr, [])
  | fuel + 1, addr =>
    match addrProjOf P addr with
    | some (op, field) =>
      let r := scanProjections P tr fuel op
      (r.1, field :: r.2)
    | none =>
      match getParam tr addr with
      | some param => scanProjections P tr fuel param
      | none => (addr, [])

/-- Source `getMemoryContent`: the store recorded at an address, in this
tracker or (recursively) the caller's. -/
def getMemoryContent : Tracker → Value → Option Nat
  | .top _ st, addr => alookupV st.memoryContent addr
  | .chained _ st _ caller, addr =>
    match alookupV st.memoryContent addr with
    | some s => some s
    | none => getMemoryContent caller addr

/-- The load→store link for an instruction: this tracker's table, else
the immediate caller tracker's table. -/
def linksLookup (tr : Tracker) (i : Nat) : Option Nat :=
  match alookupN tr.st.links i with
  | some s => some s
  | none =>
    match tr with
    | .top _ _ => none
    | .chained _ _ _ caller => alookupN caller.st.links i

/-- Default traversal fuel: enough for the acyclic use-def chains of a
well-formed program. -/
def defFuel (P : Program) : Nat :=
  (P.funcs.map fun F => (F.blocks.map fun b => b.instrs.length).sum).sum + 64

/-- Source `trackInst`: record a load's link to the last store of its base
address, record a store as the current memory content of its base
address, and treat a non-take `copy_addr` as a fused load + store. -/
def trackInst (P : Program) (tr : Tracker) (I : Instruction) : Tracker :=
  match I.kind with
  | .load addr =>
    let base := (scanProjections P tr (defFuel P) addr).1
    match getMemoryContent tr base with
    | some link => tr.setSt ⟨(I.id, link) :: tr.st.links, tr.st.memoryContent, tr.st.constCache⟩
    | none => tr
  | .store _ addr =>
    let base := (scanProjections P tr (defFuel P) addr).1
    tr.setSt ⟨tr.st.links, (base, I.id) :: tr.st.memoryContent, tr.st.constCache⟩
  | .copyAddr src dest isTake =>
    if isTake then tr
    else
      let lbase := (scanProjections P tr (defFuel P) src).1
      match getMemoryContent tr lbase with
      | some link =>
        let sbase := (scanProjections P tr (defFuel P) dest).1
        tr.setSt ⟨(I.id, link) :: tr.st.links, (sbase, I.id) :: tr.st.memoryContent,
                  tr.st.constCache⟩
      | none => tr
  | _ => tr

/-- The loaded-from operand of a load or `copy_addr`. -/
def operand0OfLoad (I : Instruction) : Option Value :=
  match I.kind with
  | .load a => some a
  | .copyAddr s _ _ => some s
  | _ => none

/-- The stored-to operand of a store or `copy_addr`. -/
def operand1OfStore (I : Instruction) : Option Value :=
  match I.kind with
  | .store _ a => some a
  | .copyAddr _ d _ => some d
  | _ => none

/-- Push collected load projections onto the projection stack (stack
top at the list head). -/
def pushProjs (stack : List Nat) (projs : List Nat) : List Nat :=
  projs.foldl (fun st p => p :: st) stack

/-- Pop the store projections (iterated innermost-first) off the stack,
requiring each to match; `none` on mismatch or underflow. -/
def matchPops : List Nat → List Nat → Option (List Nat)
  | stack, [] => some stack
  | q :: qs, p :: rest => if q = p then matchPops qs rest else none
  | [], _ :: _ => none

/-- Source `getStoredValue`: the value stored by the linked store of a load (or
`copy_addr`), adjusting the projection stack by the load's and the
store's address projections; follows `copy_addr` links
transitively. -/
def getStoredValue (P : Program) (tr : Tracker) :
    Nat → Instruction → List Nat → Option (Value × List Nat)
  | 0, _, _ => none
  | fuel + 1, loadInst, projStack =>
    match linksLookup tr loadInst.id with
    | none => none
    | some storeId =>
      match findInstr P storeId with
      | none => none
      | some store =>
        match operand0OfLoad loadInst with
        | none => none
        | some laddr =>
          let stack1 := pushProjs projStack (scanProjections P tr (defFuel P) laddr).2
          match operand1OfStore store with
          | none => none
          | some saddr =>
            match matchPops stack1 (scanProjections P tr (defFuel P) saddr).2.reverse with
            | none => none
            | some stack2 =>
              match store.kind with
              | .store src _ => some (src, stack2)
              | .copyAddr _ _ _ => getStoredValue P tr fuel store stack2
              | _ => none

/-- Source `getDef`: the estimated defining instruction of a value, walking
through object projections (pushed), aggregate constructions (popped),
linked loads, `thin_to_thick` casts and parameter-to-argument
substitution into the caller. -/
def getDef (P : Program) (tr : Tracker) : Nat → Value → List Nat → Option Instruction
  | 0, _, _ => none
  | fuel + 1, v, stack =>
    match v with
    | .inst i =>
      match findInstr P i with
      | none => none
      | some I =>
        match I.kind with
        | .objProj op field => getDef P tr fuel op (field :: stack)
        | .aggregate elems =>
          match stack with
          | f :: rest =>
            match elems.get? f with
            | some member => getDef P tr fuel member rest
            | none => some I
          | [] => some I
        | .load _ =>
          match getStoredValue P tr fuel I stack with
          | some r => getDef P tr fuel r.1 r.2
          | none => some I
        | .copyAddr _ _ _ =>
          match getStoredValue P tr fuel I stack with
          | some r => getDef P tr fuel r.1 r.2
          | none => some I
        | .thinToThick op => getDef P tr fuel op stack
        | _ => some I
    | .arg _ _ =>
      match getParam tr v with
      | some p => getDef P tr fuel p stack
      | none => none
    | .blockArg _ _ => none

/-- Source `getDef` entry point (empty projection path, default fuel). -/
def getDefTop (P : Program) (tr : Tracker) (v : Value) : Option Instruction :=
  getDef P tr (defFuel P) v []

/-- Source `getDefInCaller`: the estimated definition, only if it lies outside
the tracked function. -/
def getDefInCaller (P : Program) (tr : Tracker) (v : Value) : Option Instruction :=
  match getDefTop P tr v with
  | some d => if d.fn ≠ tr.F then some d else none
  | none => none

/-- Fuel for `getIntConstF`: the depth bound of 10 fires first at this
fuel, so the fuel case is unreachable from the entry point. -/
def trackerFuel : Nat := 24

mutual

/-- Source `getIntConst`: the estimated integer constant of a value, bounded by
a recursion depth of 10; literal definitions are tagged from-caller when
they live outside the tracked function, builtin definitions are folded
through `getBuiltinConst` with a per-instruction cache.  The tracker is
threaded because the cache is mutable state. -/
def getIntConstF (env : Env) (P : Program) :
    Nat → Tracker → Value → Int → IntConst × Tracker
  | 0, tr, _, _ => (IntConst.invalid, tr)
  | fuel + 1, tr, v, depth =>
    if depth ≥ 10 then (IntConst.invalid, tr)
    else
      match getDef P tr (defFuel P) v [] with
      | none => (IntConst.invalid, tr)
      | some I =>
        match I.kind with
        | .intLit n => (⟨n, true, decide (I.fn ≠ tr.F)⟩, tr)
        | .builtin op args =>
          match alookupN tr.st.constCache I.id with
          | some c => (c, tr)
          | none =>
            let r := getBuiltinConstF env P fuel tr op args (depth + 1)
            (r.1, r.2.setSt ⟨r.2.st.links, r.2.st.memoryContent,
                             (I.id, r.1) :: r.2.st.constCache⟩)
        | _ => (IntConst.invalid, tr)

/-- Source `getBuiltinConst`: fold a builtin with constant-foldable operands,
tagging the result from-caller when either operand was; division
requires a nonzero right operand; anything else is invalid. -/
def getBuiltinConstF (env : Env) (P : Program) :
    Nat → Tracker → BuiltinOp → List Value → Int → IntConst × Tracker
  | 0, tr, _, _, _ => (IntConst.invalid, tr)
  | fuel + 1, tr, op, args, depth =>
    match op with
    | .binaryPredicate tag =>
      match args.get? 0, args.get? 1 with
      | some a0, some a1 =>
        let l := getIntConstF env P fuel tr a0 depth
        let r := getIntConstF env P fuel l.2 a1 depth
        if l.1.isValid && r.1.isValid then
          (⟨env.foldBinaryPredicate tag l.1.value r.1.value, true,
            l.1.isFromCaller || r.1.isFromCaller⟩, r.2)
        else (IntConst.invalid, r.2)
      | _, _ => (IntConst.invalid, tr)
    | .overflowArith tag =>
      match args.get? 0, args.get? 1 with
      | some a0, some a1 =>
        let l := getIntConstF env P fuel tr a0 depth
        let r := getIntConstF env P fuel l.2 a1 depth
        if l.1.isValid && r.1.isValid then
          (⟨env.foldOverflowArith tag l.1.value r.1.value, true,
            l.1.isFromCaller || r.1.isFromCaller⟩, r.2)
        else (IntConst.invalid, r.2)
      | _, _ => (IntConst.invalid, tr)
    | .divLike tag =>
      match args.get? 0, args.get? 1 with
      | some a0, some a1 =>
        let l := getIntConstF env P fuel tr a0 depth
        let r := getIntConstF env P fuel l.2 a1 depth
        if l.1.isValid && r.1.isValid && r.1.value ≠ 0 then
          (⟨env.foldDivLike tag l.1.value r.1.value, true,
            l.1.isFromCaller || r.1.isFromCaller⟩, r.2)
        else (IntConst.invalid, r.2)
      | _, _ => (IntConst.invalid, tr)
    | .bitOp tag =>
      match args.get? 0, args.get? 1 with
      | some a0, some a1 =>
        let l := getIntConstF env P fuel tr a0 depth
        let r := getIntConstF env P fuel l.2 a1 depth
        if l.1.isValid && r.1.isValid then
          (⟨env.foldBitOp tag l.1.value r.1.value, true,
            l.1.isFromCaller || r.1.isFromCaller⟩, r.2)
        else (IntConst.invalid, r.2)
      | _, _ => (IntConst.invalid, tr)
    | .castOp tag =>
      match args.get? 0 with
      | some a0 =>
        let l := getIntConstF env P fuel tr a0 depth
        if l.1.isValid then
          (⟨env.foldCastOp tag l.1.value, true, l.1.isFromCaller⟩, l.2)
        else (IntConst.invalid, l.2)
      | none => (IntConst.invalid, tr)
    | .otherOp _ => (IntConst.invalid, tr)

end

/-- Source `getIntConst` entry point (depth 0). -/
def getIntConst (env : Env) (P : Program) (tr : Tracker) (v : Value) : IntConst × Tracker :=
  getIntConstF env P trackerFuel tr v 0

/-! ## Terminator folding (`getTakenBlock`) -/

/-- The integer-literal value of a value, when its instruction is an
`integer_literal`. -/
def asIntLit (P : Program) (v : Value) : Option Int :=
  match v with
  | .inst i =>
    match findInstr P i with
    | some I =>
      match I.kind with
      | .intLit n => some n
      | _ => none
    | none => none
  | _ => none

/-- The case scan of a `switch_value`: return the successor of a
matching literal case, bail out (no successor) at the first non-literal
case value, and fall back to the default after an all-literal
non-matching scan. -/
def scanSwitchCases (P : Program) (c : Int) :
    List (Value × Nat) → Option Nat → Option Nat
  | [], dflt => dflt
  | (cv, bb) :: rest, dflt =>
    match asIntLit P cv with
    | some n => if c = n then some bb else scanSwitchCases P c rest dflt
    | none => none

/-- The case scan of a `switch_enum`: successor of the case matching the
scrutinee's known element, else the default. -/
def scanEnumCases (elem : Nat) : List (Nat × Nat) → Option Nat → Option Nat
  | [], dflt => dflt
  | (e, bb) :: rest, dflt =>
    if e = elem then some bb else scanEnumCases elem rest dflt

/-- Source `getTakenBlock`: the statically-known successor of a terminator, if
its condition folds.  Conditional branches and value switches demand a
from-caller constant; enum switches and checked casts demand a defining
instruction in the caller.  The tracker is threaded because
`getIntConst` may update the constant cache. -/
def getTakenBlock (env : Env) (P : Program) (tr : Tracker) (term : Terminator) :
    Option Nat × Tracker :=
  match term with
  | .condBr cond t f =>
    let r := getIntConst env P tr cond
    if r.1.isFromCaller then (some (if r.1.value ≠ 0 then t else f), r.2)
    else (none, r.2)
  | .switchValue op cases dflt =>
    let r := getIntConst env P tr op
    if r.1.isFromCaller then (scanSwitchCases P r.1.value cases dflt, r.2)
    else (none, r.2)
  | .switchEnum op cases dflt =>
    (match getDefInCaller P tr op with
     | some d =>
       match d.kind with
       | .enumInst elem => scanEnumCases elem cases dflt
       | _ => none
     | none => none, tr)
  | .checkedCastBr op castTy succBB failBB =>
    (match getDefInCaller P tr op with
     | some d =>
       match d.kind with
       | .upcast uop =>
         let srcTy := env.typeOfValue uop
         if env.isExactSuperclassOf castTy srcTy then some succBB
         else if !env.isBindableToSuperclassOf srcTy castTy then some failBB
         else none
       | _ => none
     | none => none, tr)
  | .br _ => (none, tr)
  | .retTerm => (none, tr)

/-! ## Eligibility filter (`getEligibleFunction`) -/

/-- The directly referenced callee of an apply: its callee operand must
be a `function_ref`. -/
def refCalleeFunc (P : Program) (AI : Instruction) : Option SILFunction :=
  match AI.kind with
  | .apply cv _ _ =>
    match cv with
    | .inst i =>
      match findInstr P i with
      | some I =>
        match I.kind with
        | .functionRef f => findFunc P f
        | _ => none
      | none => none
    | _ => none
  | _ => none

/-- The identity of the directly referenced callee. -/
def refCalleeId (P : Program) (AI : Instruction) : Option Nat :=
  (refCalleeFunc P AI).map SILFunction.id

/-- Whether the apply site passes explicit generic substitutions. -/
def applyHasSubs (AI : Instruction) : Bool :=
  match AI.kind with
  | .apply _ _ s => s
  | _ => false

/-- Whether an instruction is a full apply site whose referenced
function is the given function. -/
def instAppliesTo (P : Program) (calleeId : Nat) (I : Instruction) : Bool :=
  match refCalleeFunc P I with
  | some f => f.id = calleeId
  | none => false

/-- Source `calleeIsSelfRecursive`: the callee contains a call to itself. -/
def calleeIsSelfRecursive (P : Program) (Callee : SILFunction) : Bool :=
  Callee.blocks.any fun b => b.instrs.any fun I => instAppliesTo P Callee.id I

/-- The second half of the eligibility chain, shared by the attribute
branches: body/declaration, inline strategy, optimizability, generic
substitutions, dynamic self, self call, fragility and
self-recursion. -/
def getEligibleRest (P : Program) (AI : Instruction) (Callee : SILFunction) :
    Option SILFunction :=
  if Callee.blocks.isEmpty || Callee.isExtDecl then none
  else if Callee.inlineStrategy = InlineStrategy.noInline then none
  else if !Callee.shouldOptimize then none
  else if applyHasSubs AI then none
  else if Callee.mayBindDynamicSelf then none
  else
    match findFunc P AI.fn with
    | none => none
    | some Caller =>
      if Caller.id = Callee.id then none
      else if Caller.isFragile && !Callee.isFragile then none
      else if calleeIsSelfRecursive P Callee then none
      else some Callee

/-- Source `getEligibleFunction`: the resolved callee of an apply site if it is
basically inlineable, else `none`. -/
def getEligibleFunction (cfg : Config) (P : Program) (AI : Instruction) :
    Option SILFunction :=
  match refCalleeFunc P AI with
  | none => none
  | some Callee =>
    if Callee.hasSemanticsAttrs || Callee.hasEffectsKind then
      if cfg.whatToInline = InlineSelection.noSemanticsAndGlobalInit then none
      else if Callee.hasSemanticsAttrs ∧ cfg.whatToInline ≠ InlineSelection.everything ∧
              Callee.hasAvailabilitySemantics then none
      else getEligibleRest P AI Callee
    else if Callee.isGlobalInit then
      if cfg.whatToInline ≠ InlineSelection.everything then none
      else getEligibleRest P AI Callee
    else getEligibleRest P AI Callee

/-! ## Cold-block profitability (`isProfitableInColdBlock`) -/

/-- The accumulation loop of `isProfitableInColdBlock`: walk every
element, bail out as soon as the running cost exceeds the bound of the
active mode (0 in test mode, the trivial-function ceiling in normal
mode). -/
def coldLoop (env : Env) (testThr : Int) :
    List (Sum Instruction Terminator) → Nat → Bool
  | [], _ => true
  | item :: rest, cost =>
    if testThr ≥ 0 then
      let cost1 := cost + (match item with | .inl I => testCost I | .inr _ => 0)
      if cost1 > 0 then false else coldLoop env testThr rest cost1
    else
      let cost1 := cost + (match item with | .inl I => env.instCost I | .inr t => env.termCost t)
      if cost1 > TrivialFunctionThreshold then false else coldLoop env testThr rest cost1

/-- Source `isProfitableInColdBlock`: always-inline callees are profitable,
test mode disables cold-block inlining, and otherwise the whole callee
(no pruning) must stay at or under the trivial-function ceiling. -/
def isProfitableInColdBlock (env : Env) (cfg : Config) (AI : Instruction)
    (Callee : SILFunction) : Bool :=
  if Callee.inlineStrategy = InlineStrategy.alwaysInline then true
  else if cfg.testThreshold ≥ 0 then false
  else coldLoop env cfg.testThreshold (calleeItems Callee) 0

/-! ## Profitability engine (`isProfitableToInline`) -/

/-- The dominator-tree children of block `b` of `F`, in function block
order (the deterministic order the dominance provider yields). -/
def domChildren (ana : Analyses) (F : SILFunction) (b : Nat) : List BasicBlock :=
  F.blocks.filter fun blk => decide (ana.domParent F.id blk.id = some b)

/-- Source `getSinglePredecessor`: the sole CFG predecessor of a block, if it
has exactly one. -/
def singlePredOf (b : BasicBlock) : Option Nat :=
  match b.preds with
  | [p] => some p
  | _ => none

/-- The state of the profitability walk over a callee: the callee's
chained tracker, the accumulated `CalleeCost` and `Benefit`, the local
(doubling) test threshold, and the visit trace — each visited block
paired with its folded taken successor. -/
structure ProfState where
  tracker : Tracker
  cost : Nat
  benefit : Nat
  testThr : Int
  trace : List (BasicBlock × Option Nat)

/-- Whether a defining instruction triggers the constant-callee bonus:
a function reference or a freshly constructed closure. -/
def isConstCalleeDef (d : Instruction) : Bool :=
  match d.kind with
  | .functionRef _ => true
  | .papply _ => true
  | _ => false

/-- Whether an instruction is an apply whose callee operand resolves
into the caller to a constant-callee definition. -/
def applyConstCalleeBonus (P : Program) (tr : Tracker) (I : Instruction) : Bool :=
  match I.kind with
  | .apply cv _ _ =>
    match getDefInCaller P tr cv with
    | some d => isConstCalleeDef d
    | none => false
  | _ => false

/-- Process one block element inside the profitability walk: track it,
charge its cost under the current mode, and for an apply whose callee
operand resolves into the caller to a function reference or closure,
award the constant-callee bonus and double the test threshold. -/
def profItem (env : Env) (P : Program) (ana : Analyses) (calleeF : SILFunction)
    (bId : Nat) (st : ProfState) : Sum Instruction Terminator → ProfState
  | .inl I =>
    let tr := trackInst P st.tracker I
    let cost1 := st.cost + (if st.testThr ≥ 0 then testCost I else env.instCost I)
    if applyConstCalleeBonus P tr I then
      ⟨tr, cost1,
       st.benefit + ConstCalleeBenefit + ana.loopDepth calleeF.id bId * LoopBenefitFactor,
       st.testThr * 2, st.trace⟩
    else ⟨tr, cost1, st.benefit, st.testThr, st.trace⟩
  | .inr t =>
    ⟨st.tracker, st.cost + (if st.testThr ≥ 0 then 0 else env.termCost t),
     st.benefit, st.testThr, st.trace⟩

/-- Process a list of block elements in order. -/
def profItems (env : Env) (P : Program) (ana : Analyses) (calleeF : SILFunction)
    (bId : Nat) : List (Sum Instruction Terminator) → ProfState → ProfState
  | [], st => st
  | x :: xs, st => profItems env P ana calleeF bId xs (profItem env P ana calleeF bId st x)

/-- Process the body of one block: clear the per-block memory content,
then process each element. -/
def profBlockBody (env : Env) (P : Program) (ana : Analyses) (calleeF : SILFunction)
    (b : BasicBlock) (st : ProfState) : ProfState :=
  profItems env P ana calleeF b.id (blockItems b)
    ⟨trackerBeginBlock st.tracker, st.cost, st.benefit, st.testThr, st.trace⟩

/-- The dominator-tree children pushed after finishing block `b`: with a
folded taken successor, a child is pushed iff its single predecessor is
not `b` or it is the taken successor; without one, all children are
pushed. -/
def pushedChildren (ana : Analyses) (F : SILFunction) (b : BasicBlock) :
    Option Nat → List BasicBlock
  | some t =>
    (domChildren ana F b.id).filter fun c =>
      decide (¬singlePredOf c = some b.id ∨ c.id = t)
  | none => domChildren ana F b.id

/-- Modelled from the spec: the dominance-ordered worklist traversal
(`DominanceOrder`, root first, a queue of blocks whose dominator-tree
children are appended — optionally filtered — when a block is
finished).  Each popped block is processed by `profBlockBody`, its
terminator folded, the constant-terminator bonus awarded, and its
(possibly pruned) children appended. -/
def profWalk (env : Env) (P : Program) (ana : Analyses) (calleeF : SILFunction) :
    Nat → List BasicBlock → ProfState → ProfState
  | 0, _, st => st
  | _ + 1, [], st => st
  | fuel + 1, b :: rest, st =>
    let st1 := profBlockBody env P ana calleeF b st
    let tk := getTakenBlock env P st1.tracker b.term
    let st2 : ProfState :=
      ⟨tk.2, st1.cost,
       st1.benefit + (match tk.1 with | some _ => ConstTerminatorBenefit | none => 0),
       st1.testThr, st1.trace ++ [(b, tk.1)]⟩
    profWalk env P ana calleeF fuel (rest ++ pushedChildren ana calleeF b tk.1) st2

/-- The initial worklist: the callee's entry block. -/
def calleeEntryQueue (F : SILFunction) : List BasicBlock :=
  match F.blocks with
  | [] => []
  | b :: _ => [b]

/-- The starting `Benefit`: the threshold override when positive, else
the removed-call benefit, plus the loop bonus of the call site. -/
def initialBenefit (cfg : Config) (loopDepthOfAI : Nat) : Nat :=
  (if cfg.inlineCostThreshold > 0 then cfg.inlineCostThreshold.toNat else RemovedCallBenefit) +
    loopDepthOfAI * LoopBenefitFactor

/-- The full profitability walk over a callee for one apply site: a
fresh tracker chained to the caller's through the apply site, started at
the entry block. -/
def profRun (env : Env) (P : Program) (ana : Analyses) (cfg : Config) (AI : Instruction)
    (loopDepthOfAI : Nat) (Callee : SILFunction) (callerTracker : Tracker) : ProfState :=
  profWalk env P ana Callee (Callee.blocks.length + 1) (calleeEntryQueue Callee)
    ⟨Tracker.chained Callee.id emptyTrackerState AI callerTracker, 0,
     initialBenefit cfg loopDepthOfAI, cfg.testThreshold, []⟩

/-- Whether the caller of the apply site is a thunk. -/
def callerIsThunk (P : Program) (AI : Instruction) : Bool :=
  match findFunc P AI.fn with
  | some f => f.isThunk
  | none => false

/-- Source `isProfitableToInline`: always-inline callees are immediately
profitable (without touching the caller-block counter); otherwise the
callee is walked, the threshold computed, and the site accepted iff
`CalleeCost` does not exceed it, adding the callee's block count to the
counter on acceptance.  Returns the decision and the updated
counter. -/
def isProfitableToInline (env : Env) (P : Program) (ana : Analyses) (cfg : Config)
    (AI : Instruction) (loopDepthOfAI : Nat) (callerTracker : Tracker)
    (numCallerBlocks : Nat) : Bool × Nat :=
  match refCalleeFunc P AI with
  | none => (false, numCallerBlocks)
  | some Callee =>
    if Callee.inlineStrategy = InlineStrategy.alwaysInline then (true, numCallerBlocks)
    else
      let st := profRun env P ana cfg AI loopDepthOfAI Callee callerTracker
      let thr := computeThreshold st.testThr (callerIsThunk P AI) st.benefit numCallerBlocks
      if st.cost > thr then (false, numCallerBlocks)
      else (true, numCallerBlocks + Callee.blocks.length)

/-! ## Call-site collector (`collectAppliesToInline`) -/

/-- The collector's walk state: the caller's top-level tracker, the
running caller-block counter, and the initial candidate list in
discovery order. -/
structure CollectState where
  tracker : Tracker
  numCallerBlocks : Nat
  initial : List Instruction

/-- One apply site inside the cold-subtree walk: append it when it is
eligible and profitable under the cold-block rule. -/
def coldInst (env : Env) (P : Program) (cfg : Config) (acc : List Instruction)
    (I : Instruction) : List Instruction :=
  match I.kind with
  | .apply _ _ _ =>
    match getEligibleFunction cfg P I with
    | some Callee => if isProfitableInColdBlock env cfg I Callee then acc ++ [I] else acc
    | none => acc
  | _ => acc

/-- The instruction loop of the cold-subtree walk. -/
def coldInsts (env : Env) (P : Program) (cfg : Config) :
    List Instruction → List Instruction → List Instruction
  | [], acc => acc
  | I :: rest, acc => coldInsts env P cfg rest (coldInst env P cfg acc I)

/-- Modelled from the spec: the unfiltered dominance-ordered worklist
walk of a cold subtree (`visitColdBlocks`), appending eligible
cold-profitable apply sites. -/
def coldWalk (env : Env) (P : Program) (ana : Analyses) (cfg : Config)
    (caller : SILFunction) : Nat → List BasicBlock → List Instruction → List Instruction
  | 0, _, acc => acc
  | _ + 1, [], acc => acc
  | fuel + 1, b :: rest, acc =>
    coldWalk env P ana cfg caller fuel (rest ++ domChildren ana caller b.id)
      (coldInsts env P cfg b.instrs acc)

/-- Source `visitColdBlocks`: the cold-subtree walk rooted at a cold child. -/
def visitColdBlocks (env : Env) (P : Program) (ana : Analyses) (cfg : Config)
    (caller : SILFunction) (root : BasicBlock) (acc : List Instruction) : List Instruction :=
  coldWalk env P ana cfg caller (caller.blocks.length + 1) [root] acc

/-- One instruction of the collector's main walk: track it, and for an
eligible apply site run the profitability engine, appending it to the
initial candidates on success and propagating the updated caller-block
counter. -/
def collectInst (env : Env) (P : Program) (ana : Analyses) (cfg : Config)
    (loopDepth : Nat) (st : CollectState) (I : Instruction) : CollectState :=
  let tr := trackInst P st.tracker I
  match I.kind with
  | .apply _ _ _ =>
    match getEligibleFunction cfg P I with
    | some _ =>
      let pr := isProfitableToInline env P ana cfg I loopDepth tr st.numCallerBlocks
      if pr.1 then ⟨tr, pr.2, st.initial ++ [I]⟩ else ⟨tr, pr.2, st.initial⟩
    | none => ⟨tr, st.numCallerBlocks, st.initial⟩
  | _ => ⟨tr, st.numCallerBlocks, st.initial⟩

/-- The instruction loop of the collector over one block's body. -/
def collectInsts (env : Env) (P : Program) (ana : Analyses) (cfg : Config)
    (loopDepth : Nat) : List Instruction → CollectState → CollectState
  | [], st => st
  | I :: rest, st => collectInsts env P ana cfg loopDepth rest (collectInst env P ana cfg loopDepth st I)

/-- Descend to the dominator-tree children of a finished caller block:
a child across a slow-path edge is handed to the cold-subtree walk
(and not pushed); all other children are pushed. -/
def collectChildren (env : Env) (P : Program) (ana : Analyses) (cfg : Config)
    (caller : SILFunction) (b : BasicBlock) :
    List BasicBlock → List BasicBlock × List Instruction → List BasicBlock × List Instruction
  | [], r => r
  | c :: cs, (push, acc) =>
    if ana.isSlowPath caller.id b.id c.id then
      collectChildren env P ana cfg caller b cs
        (push, visitColdBlocks env P ana cfg caller c acc)
    else collectChildren env P ana cfg caller b cs (push ++ [c], acc)

/-- Modelled from the spec: the collector's dominance-ordered worklist
walk over the caller (`DominanceOrder` again), gathering the initial
candidates. -/
def collectWalk (env : Env) (P : Program) (ana : Analyses) (cfg : Config)
    (caller : SILFunction) : Nat → List BasicBlock → CollectState → CollectState
  | 0, _, st => st
  | _ + 1, [], st => st
  | fuel + 1, b :: rest, st =>
    let st1 : CollectState := ⟨trackerBeginBlock st.tracker, st.numCallerBlocks, st.initial⟩
    let st2 := collectInsts env P ana cfg (ana.loopDepth caller.id b.id) b.instrs st1
    let pc := collectChildren env P ana cfg caller b (domChildren ana caller b.id)
      ([], st2.initial)
    collectWalk env P ana cfg caller fuel (rest ++ pc.1) ⟨st2.tracker, st2.numCallerBlocks, pc.2⟩

/-- The initial candidate list of one collection pass over a caller:
walk from the entry block with a fresh top-level tracker and the
counter seeded at the caller's size. -/
def collectInitial (env : Env) (P : Program) (ana : Analyses) (cfg : Config)
    (caller : SILFunction) : List Instruction :=
  (collectWalk env P ana cfg caller (caller.blocks.length + 1) (calleeEntryQueue caller)
    ⟨Tracker.top caller.id emptyTrackerState, caller.blocks.length, []⟩).initial

/-- How often a callee occurs among the initial candidates. -/
def calleeOccCount (P : Program) (l : List Instruction) (f : Nat) : Nat :=
  (l.filterMap (refCalleeId P)).count f

/-- The multiplicity-guard stage: keep, in discovery order, the
candidates whose callee occurs at most `CallsToCalleeThreshold` times
among the initial candidates. -/
def collectFinalFilter (P : Program) (initial : List Instruction) : List Instruction :=
  initial.filter fun AI =>
    match refCalleeId P AI with
    | some f => decide (calleeOccCount P initial f ≤ CallsToCalleeThreshold)
    | none => false

/-- Source `collectAppliesToInline`: the final candidate list of one collection
pass. -/
def collectAppliesToInline (env : Env) (P : Program) (ana : Analyses) (cfg : Config)
    (caller : SILFunction) : List Instruction :=
  collectFinalFilter P (collectInitial env P ana cfg caller)

/-! ## Inline driver (`inlineCallsIntoFunction`) -/

/-- Source `inlineCallsIntoFunction`: refuse non-optimizable callers, collect
the candidates, and splice each candidate whose callee is still
optimize-enabled (the splice itself is the external `SILInliner`
service, asserted to succeed).  Returns the boolean result of the pass
together with the list of call sites actually inlined. -/
def inlineCallsIntoFunction (env : Env) (P : Program) (ana : Analyses) (cfg : Config)
    (caller : SILFunction) : Bool × List Instruction :=
  if !caller.shouldOptimize then (false, [])
  else
    let applies := collectAppliesToInline env P ana cfg caller
    if applies.isEmpty then (false, [])
    else
      (true, applies.filter fun AI =>
        match refCalleeFunc P AI with
        | some Callee => Callee.shouldOptimize
        | none => false)

/-! ## Verification vocabulary -/

/-- Total cost of a block under the given mode. -/
def blockCostOf (env : Env) (m : Bool) (b : BasicBlock) : Nat :=
  ((blockItems b).map (itemCost env m)).sum

/-- The identities of the blocks visited so far. -/
def traceIds (st : ProfState) : List Nat :=
  st.trace.map fun e => e.1.id

/-- The folded taken successor computed when the walk finishes block
`b` from state `st`. -/
def stepTaken (env : Env) (P : Program) (ana : Analyses) (F : SILFunction)
    (b : BasicBlock) (st : ProfState) : Option Nat :=
  (getTakenBlock env P (profBlockBody env P ana F b st).tracker b.term).1

/-- The walk state after one full step of `profWalk` on block `b`. -/
def profStepState (env : Env) (P : Program) (ana : Analyses) (F : SILFunction)
    (b : BasicBlock) (st : ProfState) : ProfState :=
  ⟨(getTakenBlock env P (profBlockBody env P ana F b st).tracker b.term).2,
   (profBlockBody env P ana F b st).cost,
   (profBlockBody env P ana F b st).benefit +
     (match stepTaken env P ana F b st with
      | some _ => ConstTerminatorBenefit
      | none => 0),
   (profBlockBody env P ana F b st).testThr,
   (profBlockBody env P ana F b st).trace ++ [(b, stepTaken env P ana F b st)]⟩

/-- The root block identity of a function (0 for the empty function). -/
def rootIdOf (F : SILFunction) : Nat :=
  match F.blocks with
  | [] => 0
  | b :: _ => b.id

/-- The reachability invariant of the profitability walk: every block in
the worklist or the trace is the root or has its dominator-tree parent
already in the trace. -/
def Inv2 (ana : Analyses) (F : SILFunction) (rootId : Nat)
    (q : List BasicBlock) (st : ProfState) : Prop :=
  ∀ x ∈ q.map BasicBlock.id ++ traceIds st,
    x = rootId ∨ ∃ p, ana.domParent F.id x = some p ∧ p ∈ traceIds st

/-- The provenance invariant of `IntConst`: a from-caller constant is
valid. -/
def IntConstOK (c : IntConst) : Prop :=
  c.isFromCaller = true → c.isValid = true

/-- Every cached constant of the tracker satisfies the provenance
invariant. -/
def CacheOK (tr : Tracker) : Prop :=
  ∀ p ∈ tr.st.constCache, IntConstOK p.2

/-! ## Concrete instances used to evaluate the development -/

/-- A trivial external environment: zero costs, zero folds. -/
def exEnv : Env :=
  ⟨fun _ => 0, fun _ => 0, fun _ _ _ => 0, fun _ _ _ => 0, fun _ _ _ => 0,
   fun _ _ _ => 0, fun _ _ => 0, fun _ => 0, fun _ _ => false, fun _ _ => false⟩

/-- Analyses for the three-block callees below: inside function 1,
blocks 11 and 12 are dominator-tree children of block 10; no loops, no
cold edges. -/
def exAna : Analyses :=
  ⟨fun f b =>
     if f = 1 then (if b = 11 then some 10 else if b = 12 then some 10 else none)
     else none,
   fun _ _ => 0, fun _ _ _ => false⟩

/-- Test-mode configuration (test threshold 100). -/
def exCfgTest : Config := ⟨-1, 100, InlineSelection.everything⟩

/-- Caller block: an integer literal, a function reference to callee 1,
and the apply passing the literal. -/
def exCallerBlock : BasicBlock :=
  ⟨0, [⟨1, 0, .intLit 1⟩, ⟨3, 0, .functionRef 1⟩,
      ⟨2, 0, .apply (.inst 3) [.inst 1] false⟩], .retTerm, []⟩

/-- The caller function (id 0). -/
def exCaller : SILFunction :=
  ⟨0, [exCallerBlock], .inlineDefault, false, true, false, false, false, false, false,
   false, false⟩

/-- The apply site in the caller. -/
def exApply : Instruction := ⟨2, 0, .apply (.inst 3) [.inst 1] false⟩

/-- Callee entry block: a conditional branch on argument 0 with
successors 11 (true) and 12 (false). -/
def exB0 : BasicBlock := ⟨10, [], .condBr (.arg 1 0) 11 12, []⟩

/-- The taken-successor block, which falls through to block 12. -/
def exB1 : BasicBlock := ⟨11, [], .br 12, [10]⟩

/-- The merge block: reachable from both 10 and 12's other predecessor
11, and containing one builtin (test cost 1). -/
def exB2 : BasicBlock := ⟨12, [⟨4, 1, .builtin (.otherOp 0) []⟩], .retTerm, [10, 11]⟩

/-- The diamond-with-merge callee (id 1): the not-taken successor 12 has
two predecessors. -/
def exCallee : SILFunction :=
  ⟨1, [exB0, exB1, exB2], .inlineDefault, false, true, false, false, false, false, false,
   false, false⟩

/-- The program with the diamond-with-merge callee. -/
def exP : Program := ⟨[exCaller, exCallee]⟩

/-- The caller-side tracker for the example runs. -/
def exCallerTracker : Tracker := Tracker.top 0 emptyTrackerState

/-- Variant of block 12 whose only predecessor is the branch block
10. -/
def exB2w : BasicBlock := ⟨12, [⟨4, 1, .builtin (.otherOp 0) []⟩], .retTerm, [10]⟩

/-- Variant of block 11 that simply returns. -/
def exB1w : BasicBlock := ⟨11, [], .retTerm, [10]⟩

/-- The pruning-witness callee (id 1): the not-taken successor 12 has
block 10 as its sole predecessor. -/
def exCalleeW : SILFunction :=
  ⟨1, [exB0, exB1w, exB2w], .inlineDefault, false, true, false, false, false, false, false,
   false, false⟩

/-- The program with the pruning-witness callee. -/
def exPW : Program := ⟨[exCaller, exCalleeW]⟩

/-- An always-inline callee (id 1) with three blocks. -/
def exCalleeAlways : SILFunction :=
  ⟨1, [⟨10, [], .br 11, []⟩, ⟨11, [], .br 12, [10]⟩, ⟨12, [], .retTerm, [11]⟩],
   .alwaysInline, false, true, false, false, false, false, false, false, false⟩

/-- The program with the always-inline callee. -/
def exPAlways : Program := ⟨[exCaller, exCalleeAlways]⟩

/-- Callee block for the switch example: carries the two case-value
instructions — instruction 23 is not a literal, instruction 24 is the
literal 5 — and switches on argument 0. -/
def exSwitchBlock : BasicBlock :=
  ⟨30, [⟨23, 1, .other 0⟩, ⟨24, 1, .intLit 5⟩],
   .switchValue (.arg 1 0) [(.inst 23, 31), (.inst 24, 32)] none, []⟩

/-- The switch callee (id 1). -/
def exCalleeSwitch : SILFunction :=
  ⟨1, [exSwitchBlock, ⟨31, [], .retTerm, [30]⟩, ⟨32, [], .retTerm, [30]⟩],
   .inlineDefault, false, true, false, false, false, false, false, false, false⟩

/-- Caller block passing the literal 5 to the switch callee. -/
def exCallerBlockS : BasicBlock :=
  ⟨0, [⟨21, 0, .intLit 5⟩, ⟨25, 0, .functionRef 1⟩,
      ⟨22, 0, .apply (.inst 25) [.inst 21] false⟩], .retTerm, []⟩

/-- The caller for the switch example (id 0). -/
def exCallerS : SILFunction :=
  ⟨0, [exCallerBlockS], .inlineDefault, false, true, false, false, false, false, false,
   false, false⟩

/-- The switch example program. -/
def exPS : Program := ⟨[exCallerS, exCalleeSwitch]⟩

/-- The apply site of the switch example. -/
def exApplyS : Instruction := ⟨22, 0, .apply (.inst 25) [.inst 21] false⟩

/-- The callee-side tracker of the switch example. -/
def exTrackerS : Tracker :=
  Tracker.chained 1 emptyTrackerState exApplyS (Tracker.top 0 emptyTrackerState)

/-- The switch terminator of the switch example. -/
def exSwitchTerm : Terminator :=
  Terminator.switchValue (.arg 1 0) [(.inst 23, 31), (.inst 24, 32)] none

/-- A minimal program for the multiplicity guard: caller 7 holds the
function reference 101 to callee 40. -/
def exPMul : Program :=
  ⟨[⟨7, [⟨70, [⟨101, 7, .functionRef 40⟩], .retTerm, []⟩], .inlineDefault, false, true,
     false, false, false, false, false, false, false⟩,
    ⟨40, [⟨41, [], .retTerm, []⟩], .inlineDefault, false, true, false, false, false,
     false, false, false, false⟩]⟩

/-- The repeated candidate of the multiplicity-guard witness. -/
def exApplyMul : Instruction := ⟨100, 7, .apply (.inst 101) [] false⟩

/-- A self-recursive callee (id 6): its body applies function 6. -/
def exCalleeSelfRec : SILFunction :=
  ⟨6, [⟨60, [⟨62, 6, .functionRef 6⟩, ⟨61, 6, .apply (.inst 62) [] false⟩], .retTerm, []⟩],
   .inlineDefault, false, true, false, false, false, false, false, false, false⟩

/-- A caller (id 5) applying the self-recursive callee. -/
def exCallerSelfRec : SILFunction :=
  ⟨5, [⟨50, [⟨52, 5, .functionRef 6⟩, ⟨51, 5, .apply (.inst 52) [] false⟩], .retTerm, []⟩],
   .inlineDefault, false, true, false, false, false, false, false, false, false⟩

/-- The program with the self-recursive callee. -/
def exPSelfRec : Program := ⟨[exCallerSelfRec, exCalleeSelfRec]⟩

/-- The apply site of the self-recursion example. -/
def exApplySelfRec : Instruction := ⟨51, 5, .apply (.inst 52) [] false⟩

/-! ## Lemmas: threshold arithmetic -/

lemma blockMinus_no_overflow {n : Nat} (h : n ≤ 35000) :
    blockMinus n = n * n / BlockLimitDenominator * n / BlockLimitDenominator := by
  have h1 : n * n < 4294967296 := by
    have : n * n ≤ 35000 * 35000 := Nat.mul_le_mul h h
    omega
  have h2 : n * n / BlockLimitDenominator * n < 4294967296 := by
    have hd : n * n / BlockLimitDenominator ≤ 122500 := by
      have : n * n / BlockLimitDenominator ≤ 1225000000 / BlockLimitDenominator :=
        Nat.div_le_div_right (by have := Nat.mul_le_mul h h; omega)
      simpa [BlockLimitDenominator] using this
    have : n * n / BlockLimitDenominator * n ≤ 122500 * 35000 := Nat.mul_le_mul hd h
    omega
  unfold blockMinus u32
  rw [Nat.mod_eq_of_lt h1, Nat.mod_eq_of_lt h2]

lemma blockMinus_mono {m n : Nat} (hmn : m ≤ n) (h35 : n ≤ 35000) :
    blockMinus m ≤ blockMinus n := by
  rw [blockMinus_no_overflow (le_trans hmn h35), blockMinus_no_overflow h35]
  exact Nat.div_le_div_right
    (Nat.mul_le_mul (Nat.div_le_div_right (Nat.mul_le_mul hmn hmn)) hmn)

/-- C5 (amended): for fixed `Benefit`, the computed normal-mode
`Threshold` never drops below the trivial-function ceiling, and it is
non-increasing in the running caller-block counter on the range where
the cubic decay computation does not overflow 32-bit unsigned
arithmetic (counters up to 35000); the decay term itself is
`blockMinus`, the source's `counter² / denominator * counter /
denominator` in the code's integer arithmetic. -/
theorem c5_theorem (B m n : Nat) :
    TrivialFunctionThreshold ≤ normalThreshold B n ∧
    (m ≤ n → n ≤ 35000 → normalThreshold B n ≤ normalThreshold B m) := by
  constructor
  · simp only [normalThreshold, TrivialFunctionThreshold]
    split <;> omega
  · intro hmn h35
    have hbm := blockMinus_mono hmn h35
    simp only [normalThreshold, TrivialFunctionThreshold] at *
    split <;> split <;> omega

/-- C5 counterexample: the 32-bit wraparound of `counter * counter` at
`counter = 65536` resets the decay term to zero, so for `Benefit = 80`
the threshold climbs from the floor (20, at counter 65535) back to 80
(at counter 65536): `Threshold` is not a non-increasing function of the
counter. -/
theorem c5_counterexample :
    (65535 : Nat) ≤ 65536 ∧
    normalThreshold 80 65535 = TrivialFunctionThreshold ∧
    normalThreshold 80 65536 = 80 ∧
    ¬normalThreshold 80 65536 ≤ normalThreshold 80 65535 := by
  refine ⟨by omega, ?_, ?_, ?_⟩ <;> decide

/-- C5 witness: the amended theorem applied at `Benefit = 100`,
counters 5 and 6. -/
theorem c5_witness :
    TrivialFunctionThreshold ≤ normalThreshold 100 6 ∧
    normalThreshold 100 6 ≤ normalThreshold 100 5 :=
  ⟨(c5_theorem 100 5 6).1, (c5_theorem 100 5 6).2 (by omega) (by omega)⟩

/-! ## Lemmas: cold-block profitability -/

lemma coldLoop_iff (env : Env) {t : Int} (ht : ¬t ≥ 0) :
    ∀ (l : List (Sum Instruction Terminator)) (c : Nat), c ≤ TrivialFunctionThreshold →
      (coldLoop env t l c = true ↔
        c + (l.map (itemCost env false)).sum ≤ TrivialFunctionThreshold)
  | [], c, hc => by
    simpa [coldLoop] using hc
  | x :: xs, c, hc => by
    have hx : (match x with | .inl I => env.instCost I | .inr t => env.termCost t) =
        itemCost env false x := by
      cases x <;> simp [itemCost]
    simp only [coldLoop, if_neg ht, List.map_cons, List.sum_cons, hx]
    split
    · rename_i hgt
      constructor
      · intro h; exact absurd h (by simp)
      · intro h; omega
    · rename_i hle
      rw [coldLoop_iff env ht xs (c + itemCost env false x) (by omega)]
      omega

lemma sum_take_le (l : List Nat) (k : Nat) : (l.take k).sum ≤ l.sum := by
  conv_rhs => rw [← List.take_append_drop k l]
  rw [List.sum_append]
  omega

lemma sum_all_take_iff (l : List Nat) (N : Nat) :
    (∀ k, (l.take k).sum ≤ N) ↔ l.sum ≤ N := by
  constructor
  · intro h
    have := h l.length
    simpa [List.take_length] using this
  · intro h k
    exact le_trans (sum_take_le l k) h

/-- C6: `isProfitableInColdBlock` succeeds exactly when the callee is
marked always-inline, or test mode is off and the running sum of the
callee's per-element costs over all of its blocks (every prefix of the
unpruned walk) stays at or under the trivial-function ceiling; in test
mode a non-always-inline callee is never cold-profitable. -/
theorem c6_theorem (env : Env) (cfg : Config) (AI : Instruction) (Callee : SILFunction) :
    isProfitableInColdBlock env cfg AI Callee = true ↔
      (Callee.inlineStrategy = InlineStrategy.alwaysInline ∨
       (cfg.testThreshold < 0 ∧
        ∀ k, (((calleeItems Callee).map (itemCost env false)).take k).sum ≤
          TrivialFunctionThreshold)) := by
  unfold isProfitableInColdBlock
  split
  · rename_i h; simp [h]
  · rename_i h
    split
    · rename_i hts
      constructor
      · intro hfalse; exact absurd hfalse (by simp)
      · rintro (hA | ⟨hneg, -⟩)
        · exact absurd hA h
        · omega
    · rename_i hts
      rw [coldLoop_iff env hts (calleeItems Callee) 0 (by omega)]
      rw [Nat.zero_add, ← sum_all_take_iff]
      constructor
      · intro hk; exact Or.inr ⟨by omega, hk⟩
      · rintro (hA | ⟨-, hk⟩)
        · exact absurd hA h
        · exact hk

/-! ## Lemmas: the multiplicity guard and determinism -/

/-- C9: the collector is deterministic — two runs on the same caller
with the same analyses yield the same candidate list — and the final
list is an order-preserving sublist of the initial candidates in
discovery order. -/
theorem c9_theorem (env : Env) (P : Program) (ana : Analyses) (cfg : Config)
    (caller : SILFunction) (l1 l2 : List Instruction)
    (h1 : l1 = collectAppliesToInline env P ana cfg caller)
    (h2 : l2 = collectAppliesToInline env P ana cfg caller) :
    l1 = l2 ∧ l1.Sublist (collectInitial env P ana cfg caller) := by
  subst h1; subst h2
  exact ⟨rfl, List.filter_sublist _⟩

/-- C9 witness: two invocations of the collector on the diamond-callee
example. -/
theorem c9_witness :
    collectAppliesToInline exEnv exP exAna exCfgTest exCaller =
      collectAppliesToInline exEnv exP exAna exCfgTest exCaller ∧
    (collectAppliesToInline exEnv exP exAna exCfgTest exCaller).Sublist
      (collectInitial exEnv exP exAna exCfgTest exCaller) :=
  c9_theorem exEnv exP exAna exCfgTest exCaller _ _ rfl rfl

/-- C4: a callee occurring more than 1024 times among the initial
candidates is dropped entirely by the multiplicity guard; with exactly
1024 occurrences every one of its sites is kept; and the collector's
final list is exactly the guard stage applied to the initial
candidates. -/
theorem c4_theorem (P : Program) (initial : List Instruction) (f : Nat) :
    (calleeOccCount P initial f > CallsToCalleeThreshold →
      ∀ AI ∈ collectFinalFilter P initial, ¬refCalleeId P AI = some f) ∧
    (calleeOccCount P initial f = CallsToCalleeThreshold →
      ∀ AI ∈ initial, refCalleeId P AI = some f → AI ∈ collectFinalFilter P initial) ∧
    (∀ env ana cfg caller, collectAppliesToInline env P ana cfg caller =
      collectFinalFilter P (collectInitial env P ana cfg caller)) := by
  refine ⟨?_, ?_, fun _ _ _ _ => rfl⟩
  · intro hgt AI hmem heq
    rcases List.mem_filter.1 hmem with ⟨-, hp⟩
    rw [heq] at hp
    simp only [decide_eq_true_eq] at hp
    omega
  · intro heq AI hmem hf
    refine List.mem_filter.2 ⟨hmem, ?_⟩
    rw [hf]
    simp only [decide_eq_true_eq]
    omega

lemma calleeOccCount_replicate (P : Program) (a : Instruction) (f : Nat)
    (h : refCalleeId P a = some f) (n : Nat) :
    calleeOccCount P (List.replicate n a) f = n := by
  induction n with
  | zero => simp [calleeOccCount]
  | succ k ih =>
    simp only [calleeOccCount, List.replicate_succ, List.filterMap_cons, h] at *
    simp [List.count_cons, ih]

/-- C4 witness: with 1025 occurrences of one candidate, the repeated
site is not in the final list. -/
theorem c4_witness :
    exApplyMul ∉ collectFinalFilter exPMul (List.replicate 1025 exApplyMul) := by
  intro hmem
  have href : refCalleeId exPMul exApplyMul = some 40 := by decide
  have hcount : calleeOccCount exPMul (List.replicate 1025 exApplyMul) 40 = 1025 :=
    calleeOccCount_replicate exPMul exApplyMul 40 href 1025
  exact (c4_theorem exPMul (List.replicate 1025 exApplyMul) 40).1
    (by rw [hcount]; norm_num [CallsToCalleeThreshold]) exApplyMul hmem href

/-! ## Lemmas: eligibility and candidate membership -/

lemma eligibleRest_elim {P : Program} {AI : Instruction} {Callee C : SILFunction}
    (h : getEligibleRest P AI Callee = some C) :
    C = Callee ∧ Callee.shouldOptimize = true ∧ calleeIsSelfRecursive P Callee = false ∧
    ∀ Caller, findFunc P AI.fn = some Caller →
      ¬Caller.id = Callee.id ∧ (Caller.isFragile && !Callee.isFragile) = false := by
  unfold getEligibleRest at h
  split at h; · exact absurd h (by simp)
  split at h; · exact absurd h (by simp)
  split at h; · exact absurd h (by simp)
  split at h; · exact absurd h (by simp)
  split at h; · exact absurd h (by simp)
  rename_i hne hnoinline hopt hsubs hdyn
  split at h
  · exact absurd h (by simp)
  · rename_i Caller hfind
    split at h; · exact absurd h (by simp)
    split at h; · exact absurd h (by simp)
    split at h; · exact absurd h (by simp)
    rename_i hid hfrag hrec
    refine ⟨(Option.some.inj h).symm, by simpa using hopt, by simpa using hrec, ?_⟩
    intro Caller' hfind'
    rw [hfind] at hfind'
    cases hfind'
    exact ⟨hid, by simpa using hfrag⟩

lemma eligible_elim {cfg : Config} {P : Program} {AI : Instruction} {C : SILFunction}
    (h : getEligibleFunction cfg P AI = some C) :
    refCalleeFunc P AI = some C ∧ C.shouldOptimize = true ∧
    calleeIsSelfRecursive P C = false ∧
    ∀ Caller, findFunc P AI.fn = some Caller →
      ¬Caller.id = C.id ∧ (Caller.isFragile && !C.isFragile) = false := by
  unfold getEligibleFunction at h
  split at h
  · exact absurd h (by simp)
  rename_i Callee href
  have hrest : getEligibleRest P AI Callee = some C := by
    split at h
    · split at h
      · exact absurd h (by simp)
      · split at h
        · exact absurd h (by simp)
        · exact h
    · split at h
      · split at h
        · exact absurd h (by simp)
        · exact h
      · exact h
  obtain ⟨hCeq, hopt, hrec, hcaller⟩ := eligibleRest_elim hrest
  subst hCeq
  exact ⟨href, hopt, hrec, hcaller⟩

lemma coldInst_mem {env : Env} {P : Program} {cfg : Config} {acc : List Instruction}
    {I AI : Instruction} (h : AI ∈ coldInst env P cfg acc I) :
    AI ∈ acc ∨ ∃ C, getEligibleFunction cfg P AI = some C := by
  unfold coldInst at h
  split at h
  all_goals try exact Or.inl h
  split at h
  all_goals try exact Or.inl h
  rename_i Callee helig
  split at h
  · rcases List.mem_append.1 h with hacc | hone
    · exact Or.inl hacc
    · rcases List.mem_singleton.1 hone with rfl
      exact Or.inr ⟨Callee, helig⟩
  · exact Or.inl h

lemma coldInsts_mem {env : Env} {P : Program} {cfg : Config} :
    ∀ {l : List Instruction} {acc AI}, AI ∈ coldInsts env P cfg l acc →
      AI ∈ acc ∨ ∃ C, getEligibleFunction cfg P AI = some C := by
  intro l
  induction l with
  | nil => intro acc AI h; exact Or.inl h
  | cons I rest ih =>
    intro acc AI h
    rcases ih h with h1 | h2
    · exact coldInst_mem h1
    · exact Or.inr h2

lemma coldWalk_mem {env : Env} {P : Program} {ana : Analyses} {cfg : Config}
    {caller : SILFunction} :
    ∀ {fuel : Nat} {q : List BasicBlock} {acc AI},
      AI ∈ coldWalk env P ana cfg caller fuel q acc →
      AI ∈ acc ∨ ∃ C, getEligibleFunction cfg P AI = some C := by
  intro fuel
  induction fuel with
  | zero => intro q acc AI h; exact Or.inl h
  | succ n ih =>
    intro q acc AI h
    cases q with
    | nil => exact Or.inl h
    | cons b rest =>
      rcases ih h with h1 | h2
      · exact coldInsts_mem h1
      · exact Or.inr h2

lemma collectInst_mem {env : Env} {P : Program} {ana : Analyses} {cfg : Config}
    {ld : Nat} {st : CollectState} {I AI : Instruction}
    (h : AI ∈ (collectInst env P ana cfg ld st I).initial) :
    AI ∈ st.initial ∨ ∃ C, getEligibleFunction cfg P AI = some C := by
  unfold collectInst at h
  dsimp only at h
  split at h
  all_goals try exact Or.inl h
  split at h
  all_goals try exact Or.inl h
  rename_i Callee helig
  split at h
  · rcases List.mem_append.1 h with hacc | hone
    · exact Or.inl hacc
    · rcases List.mem_singleton.1 hone with rfl
      exact Or.inr ⟨Callee, helig⟩
  · exact Or.inl h

lemma collectInsts_mem {env : Env} {P : Program} {ana : Analyses} {cfg : Config}
    {ld : Nat} :
    ∀ {l : List Instruction} {st : CollectState} {AI},
      AI ∈ (collectInsts env P ana cfg ld l st).initial →
      AI ∈ st.initial ∨ ∃ C, getEligibleFunction cfg P AI = some C := by
  intro l
  induction l with
  | nil => intro st AI h; exact Or.inl h
  | cons I rest ih =>
    intro st AI h
    rcases ih h with h1 | h2
    · exact collectInst_mem h1
    · exact Or.inr h2

lemma collectChildren_mem {env : Env} {P : Program} {ana : Analyses} {cfg : Config}
    {caller : SILFunction} {b : BasicBlock} :
    ∀ {cs : List BasicBlock} {push : List BasicBlock} {acc : List Instruction} {AI},
      AI ∈ (collectChildren env P ana cfg caller b cs (push, acc)).2 →
      AI ∈ acc ∨ ∃ C, getEligibleFunction cfg P AI = some C := by
  intro cs
  induction cs with
  | nil => intro push acc AI h; exact Or.inl h
  | cons c rest ih =>
    intro push acc AI h
    rw [collectChildren] at h
    split at h
    · rcases ih h with h1 | h2
      · rcases coldWalk_mem h1 with h3 | h4
        · exact Or.inl h3
        · exact Or.inr h4
      · exact Or.inr h2
    · exact ih h

lemma collectWalk_mem {env : Env} {P : Program} {ana : Analyses} {cfg : Config}
    {caller : SILFunction} :
    ∀ {fuel : Nat} {q : List BasicBlock} {st : CollectState} {AI},
      AI ∈ (collectWalk env P ana cfg caller fuel q st).initial →
      AI ∈ st.initial ∨ ∃ C, getEligibleFunction cfg P AI = some C := by
  intro fuel
  induction fuel with
  | zero => intro q st AI h; exact Or.inl h
  | succ n ih =>
    intro q st AI h
    cases q with
    | nil => exact Or.inl h
    | cons b rest =>
      rw [collectWalk] at h
      rcases ih h with h1 | h2
      · rcases collectChildren_mem h1 with h3 | h4
        · rcases collectInsts_mem h3 with h5 | h6
          · exact Or.inl h5
          · exact Or.inr h6
        · exact Or.inr h4
      · exact Or.inr h2

lemma collectInitial_mem {env : Env} {P : Program} {ana : Analyses} {cfg : Config}
    {caller : SILFunction} {AI : Instruction}
    (h : AI ∈ collectInitial env P ana cfg caller) :
    ∃ C, getEligibleFunction cfg P AI = some C := by
  rcases collectWalk_mem h with h1 | h2
  · exact absurd h1 (by simp)
  · exact h2

lemma collectApplies_mem {env : Env} {P : Program} {ana : Analyses} {cfg : Config}
    {caller : SILFunction} {AI : Instruction}
    (h : AI ∈ collectAppliesToInline env P ana cfg caller) :
    ∃ C, getEligibleFunction cfg P AI = some C :=
  collectInitial_mem (List.mem_of_mem_filter h)

lemma inlined_mem {env : Env} {P : Program} {ana : Analyses} {cfg : Config}
    {caller : SILFunction} {AI : Instruction}
    (h : AI ∈ (inlineCallsIntoFunction env P ana cfg caller).2) :
    AI ∈ collectAppliesToInline env P ana cfg caller := by
  unfold inlineCallsIntoFunction at h
  dsimp only at h
  split at h
  · exact absurd h (by simp)
  · split at h
    · exact absurd h (by simp)
    · exact List.mem_of_mem_filter h

/-! ## The driver's boolean result and the eligibility guarantee -/

/-- C2: `inlineCallsIntoFunction` returns `true` exactly when at least
one call site is actually inlined (its inlined list is nonempty): every
collected candidate passed the eligibility filter, so its callee is
still optimize-enabled when the driver re-checks it. -/
theorem c2_theorem (env : Env) (P : Program) (ana : Analyses) (cfg : Config)
    (caller : SILFunction) :
    ((inlineCallsIntoFunction env P ana cfg caller).1 = true ↔
      ¬(inlineCallsIntoFunction env P ana cfg caller).2 = []) := by
  unfold inlineCallsIntoFunction
  dsimp only
  split
  · simp
  · split
    · simp
    · rename_i hne
      constructor
      · intro _
        have hex : ∃ a, a ∈ collectAppliesToInline env P ana cfg caller := by
          cases hl : collectAppliesToInline env P ana cfg caller with
          | nil => rw [hl] at hne; simp at hne
          | cons a rest => exact ⟨a, by simp [hl]⟩
        obtain ⟨a, ha⟩ := hex
        obtain ⟨C, hC⟩ := collectApplies_mem ha
        obtain ⟨href, hopt, -, -⟩ := eligible_elim hC
        have hmem : a ∈ (collectAppliesToInline env P ana cfg caller).filter
            (fun AI => match refCalleeFunc P AI with
              | some Callee => Callee.shouldOptimize
              | none => false) :=
          List.mem_filter.2 ⟨ha, by simp only [href]; exact hopt⟩
        exact List.ne_nil_of_mem hmem
      · intro _
        rfl

/-- C7: an apply site rejected by the eligibility filter is never an
initial candidate, never a final candidate, and never inlined, under
every configuration; and in particular a direct self call, a fragile
caller with a non-fragile callee, or a self-recursive callee makes the
filter reject the site. -/
theorem c7_theorem (env : Env) (P : Program) (ana : Analyses) (cfg : Config)
    (caller : SILFunction) (AI : Instruction) :
    (getEligibleFunction cfg P AI = none →
       AI ∉ collectInitial env P ana cfg caller ∧
       AI ∉ collectAppliesToInline env P ana cfg caller ∧
       AI ∉ (inlineCallsIntoFunction env P ana cfg caller).2) ∧
    (∀ Caller Callee, findFunc P AI.fn = some Caller → refCalleeFunc P AI = some Callee →
       (Caller.id = Callee.id ∨ (Caller.isFragile = true ∧ Callee.isFragile = false) ∨
        calleeIsSelfRecursive P Callee = true) →
       getEligibleFunction cfg P AI = none) := by
  constructor
  · intro hnone
    refine ⟨?_, ?_, ?_⟩
    · intro hmem
      obtain ⟨C, hC⟩ := collectInitial_mem hmem
      rw [hnone] at hC
      exact absurd hC (by simp)
    · intro hmem
      obtain ⟨C, hC⟩ := collectApplies_mem hmem
      rw [hnone] at hC
      exact absurd hC (by simp)
    · intro hmem
      obtain ⟨C, hC⟩ := collectApplies_mem (inlined_mem hmem)
      rw [hnone] at hC
      exact absurd hC (by simp)
  · intro Caller Callee hfind href hcond
    cases he : getEligibleFunction cfg P AI with
    | none => rfl
    | some C =>
      obtain ⟨href', hopt, hrec, hcaller⟩ := eligible_elim he
      rw [href] at href'
      injection href' with hCe
      subst hCe
      obtain ⟨hid, hfrag⟩ := hcaller Caller hfind
      rcases hcond with h1 | h2 | h3
      · exact absurd h1 hid
      · rw [h2.1, h2.2] at hfrag
        simp at hfrag
      · rw [h3] at hrec
        exact absurd hrec (by simp)

/-- C7 witness: the apply of the self-recursive callee is never an
initial candidate of the collector. -/
theorem c7_witness :
    exApplySelfRec ∉ collectInitial exEnv exPSelfRec exAna exCfgTest exCallerSelfRec :=
  ((c7_theorem exEnv exPSelfRec exAna exCfgTest exCallerSelfRec exApplySelfRec).1
    (by decide)).1

/-! ## Lemmas: terminator folding -/

lemma scan_skip (P : Program) (c : Int) :
    ∀ (pre rest : List (Value × Nat)) (dflt : Option Nat),
      (∀ x ∈ pre, ∃ m, asIntLit P x.1 = some m ∧ ¬c = m) →
      scanSwitchCases P c (pre ++ rest) dflt = scanSwitchCases P c rest dflt
  | [], _, _, _ => rfl
  | (cv, bb) :: pre', rest, dflt, h => by
    obtain ⟨m, hm, hne⟩ := h (cv, bb) (List.mem_cons_self _ _)
    simp only [List.cons_append, scanSwitchCases, hm, if_neg hne]
    exact scan_skip P c pre' rest dflt fun x hx => h x (List.mem_cons_of_mem _ hx)

/-- C8 (amended): `getTakenBlock` resolves a conditional branch or a
value switch only from a from-caller constant; the value-switch scan
proceeds in case order, returns the successor of the first matching
literal case provided every earlier case is a non-matching literal,
bails out with no successor at the first non-literal case value (even
when a later literal case matches), and falls through to the declared
default only after an all-literal non-matching scan. -/
theorem c8_theorem (env : Env) (P : Program) (tr : Tracker) :
    (∀ cond t f bb, (getTakenBlock env P tr (Terminator.condBr cond t f)).1 = some bb →
       (getIntConst env P tr cond).1.isFromCaller = true) ∧
    (∀ op cases dflt bb,
       (getTakenBlock env P tr (Terminator.switchValue op cases dflt)).1 = some bb →
       (getIntConst env P tr op).1.isFromCaller = true) ∧
    (∀ op cases dflt, (getTakenBlock env P tr (Terminator.switchValue op cases dflt)).1 =
       if (getIntConst env P tr op).1.isFromCaller = true then
         scanSwitchCases P (getIntConst env P tr op).1.value cases dflt
       else none) ∧
    (∀ (c : Int) pre cv bb rest dflt, asIntLit P cv = none →
       (∀ x ∈ pre, ∃ m, asIntLit P x.1 = some m ∧ ¬c = m) →
       scanSwitchCases P c (pre ++ (cv, bb) :: rest) dflt = none) ∧
    (∀ (c : Int) pre cv bb rest dflt m, asIntLit P cv = some m → c = m →
       (∀ x ∈ pre, ∃ n, asIntLit P x.1 = some n ∧ ¬c = n) →
       scanSwitchCases P c (pre ++ (cv, bb) :: rest) dflt = some bb) ∧
    (∀ (c : Int) cases dflt, (∀ x ∈ cases, ∃ m, asIntLit P x.1 = some m ∧ ¬c = m) →
       scanSwitchCases P c cases dflt = dflt) := by
  refine ⟨?_, ?_, ?_, ?_, ?_, ?_⟩
  · intro cond t f bb h
    unfold getTakenBlock at h
    dsimp only at h
    split at h
    · rename_i hfc; exact hfc
    · exact absurd h (by simp)
  · intro op cases dflt bb h
    unfold getTakenBlock at h
    dsimp only at h
    split at h
    · rename_i hfc; exact hfc
    · exact absurd h (by simp)
  · intro op cases dflt
    unfold getTakenBlock
    dsimp only
    split
    · rfl
    · rfl
  · intro c pre cv bb rest dflt hnl hpre
    rw [scan_skip P c pre _ dflt hpre]
    simp [scanSwitchCases, hnl]
  · intro c pre cv bb rest dflt m hm hcm hpre
    rw [scan_skip P c pre _ dflt hpre]
    simp [scanSwitchCases, hm, hcm]
  · intro c cases dflt hall
    have := scan_skip P c cases [] dflt hall
    simpa using this

/-- C8 counterexample: the callee switches on argument 0, the caller
passes the literal 5, and the second case is the literal 5 — the first
case whose literal value matches the constant — yet `getTakenBlock`
returns no successor, because the scan stops at the first case, whose
value (instruction 23) is not a literal. -/
theorem c8_counterexample :
    (getIntConst exEnv exPS exTrackerS (Value.arg 1 0)).1.isFromCaller = true ∧
    (getIntConst exEnv exPS exTrackerS (Value.arg 1 0)).1.value = 5 ∧
    asIntLit exPS (Value.inst 23) = none ∧
    asIntLit exPS (Value.inst 24) = some 5 ∧
    [(Value.inst 23, 31), (Value.inst 24, 32)].get? 1 = some (Value.inst 24, 32) ∧
    (getTakenBlock exEnv exPS exTrackerS exSwitchTerm).1 = none := by
  refine ⟨?_, ?_, ?_, ?_, ?_, ?_⟩ <;> decide

/-- C8 witness: the amended scan rule applied concretely — with no
earlier case, a matching literal case is taken. -/
theorem c8_witness :
    scanSwitchCases exPS 5 ([] ++ (Value.inst 24, 32) :: []) none = some 32 :=
  (c8_theorem exEnv exPS exTrackerS).2.2.2.2.1 5 [] (Value.inst 24) 32 [] none 5
    (by decide) rfl (by simp)

/-! ## Lemmas: the IntConst provenance invariant -/

lemma alookupN_mem {β : Type} :
    ∀ {l : List (Nat × β)} {k : Nat} {v : β}, alookupN l k = some v → (k, v) ∈ l
  | [], _, _, h => by simp [alookupN] at h
  | (k0, v0) :: rest, k, v, h => by
    rw [alookupN] at h
    split at h
    · rename_i hk
      injection h with hv
      subst hk; subst hv
      exact List.mem_cons_self _ _
    · exact List.mem_cons_of_mem _ (alookupN_mem h)

lemma st_setSt (tr : Tracker) (s : TrackerState) : (tr.setSt s).st = s := by
  cases tr <;> rfl

lemma getConst_ok : ∀ fuel : Nat,
    (∀ (env : Env) (P : Program) (tr : Tracker) (v : Value) (d : Int), CacheOK tr →
       IntConstOK (getIntConstF env P fuel tr v d).1 ∧
       CacheOK (getIntConstF env P fuel tr v d).2) ∧
    (∀ (env : Env) (P : Program) (tr : Tracker) (op : BuiltinOp) (args : List Value)
       (d : Int), CacheOK tr →
       IntConstOK (getBuiltinConstF env P fuel tr op args d).1 ∧
       CacheOK (getBuiltinConstF env P fuel tr op args d).2) := by
  intro fuel
  induction fuel with
  | zero =>
    constructor
    · intro env P tr v d hc
      exact ⟨by simp [getIntConstF, IntConstOK, IntConst.invalid],
             by simpa [getIntConstF] using hc⟩
    · intro env P tr op args d hc
      exact ⟨by simp [getBuiltinConstF, IntConstOK, IntConst.invalid],
             by simpa [getBuiltinConstF] using hc⟩
  | succ n ih =>
    constructor
    · intro env P tr v d hc
      simp only [getIntConstF]
      split
      · exact ⟨by simp [IntConstOK, IntConst.invalid], hc⟩
      · split
        · exact ⟨by simp [IntConstOK, IntConst.invalid], hc⟩
        · split
          all_goals
            first
            | exact ⟨by simp [IntConstOK, IntConst.invalid], hc⟩
            | exact ⟨by simp [IntConstOK], hc⟩
            | (split
               · rename_i hcache
                 exact ⟨hc _ (alookupN_mem hcache), hc⟩
               · try dsimp only
                 obtain ⟨h1, h2⟩ := ih.2 env P tr _ _ (d + 1) hc
                 refine ⟨h1, ?_⟩
                 intro p hp
                 rw [st_setSt] at hp
                 rcases List.mem_cons.1 hp with hEq | hTail
                 · subst hEq; exact h1
                 · exact h2 p hTail)
    · intro env P tr op args d hc
      simp only [getBuiltinConstF]
      split
      case _ => -- binaryPredicate
        split
        all_goals
          first
          | exact ⟨by simp [IntConstOK, IntConst.invalid], hc⟩
          | (try dsimp only
             obtain ⟨hl1, hl2⟩ := ih.1 env P tr _ _ hc
             obtain ⟨hr1, hr2⟩ := ih.1 env P _ _ _ hl2
             split
             · exact ⟨by simp [IntConstOK], hr2⟩
             · exact ⟨by simp [IntConstOK, IntConst.invalid], hr2⟩)
      case _ => -- overflowArith
        split
        all_goals
          first
          | exact ⟨by simp [IntConstOK, IntConst.invalid], hc⟩
          | (try dsimp only
             obtain ⟨hl1, hl2⟩ := ih.1 env P tr _ _ hc
             obtain ⟨hr1, hr2⟩ := ih.1 env P _ _ _ hl2
             split
             · exact ⟨by simp [IntConstOK], hr2⟩
             · exact ⟨by simp [IntConstOK, IntConst.invalid], hr2⟩)
      case _ => -- divLike
        split
        all_goals
          first
          | exact ⟨by simp [IntConstOK, IntConst.invalid], hc⟩
          | (try dsimp only
             obtain ⟨hl1, hl2⟩ := ih.1 env P tr _ _ hc
             obtain ⟨hr1, hr2⟩ := ih.1 env P _ _ _ hl2
             split
             · exact ⟨by simp [IntConstOK], hr2⟩
             · exact ⟨by simp [IntConstOK, IntConst.invalid], hr2⟩)
      case _ => -- bitOp
        split
        all_goals
          first
          | exact ⟨by simp [IntConstOK, IntConst.invalid], hc⟩
          | (try dsimp only
             obtain ⟨hl1, hl2⟩ := ih.1 env P tr _ _ hc
             obtain ⟨hr1, hr2⟩ := ih.1 env P _ _ _ hl2
             split
             · exact ⟨by simp [IntConstOK], hr2⟩
             · exact ⟨by simp [IntConstOK, IntConst.invalid], hr2⟩)
      case _ => -- castOp
        split
        all_goals
          first
          | exact ⟨by simp [IntConstOK, IntConst.invalid], hc⟩
          | (try dsimp only
             obtain ⟨hl1, hl2⟩ := ih.1 env P tr _ _ hc
             split
             · exact ⟨by simp [IntConstOK], hl2⟩
             · exact ⟨by simp [IntConstOK, IntConst.invalid], hl2⟩)
      case _ => -- otherOp
        exact ⟨by simp [IntConstOK, IntConst.invalid], hc⟩

/-- C10: every `IntConst` the tracker produces — through `getIntConst`
or `getBuiltinConst`, at any fuel and depth, from any state whose cache
already satisfies the invariant — is valid whenever it is tagged
from-caller, and the produced cache keeps the invariant; consequently
when `getTakenBlock` resolves a conditional branch after checking only
the from-caller flag, the constant it read is valid. -/
theorem c10_theorem (env : Env) (P : Program) (fuel : Nat) (tr : Tracker) (v : Value)
    (op : BuiltinOp) (args : List Value) (depth : Int) (hc : CacheOK tr) :
    IntConstOK (getIntConstF env P fuel tr v depth).1 ∧
    CacheOK (getIntConstF env P fuel tr v depth).2 ∧
    IntConstOK (getBuiltinConstF env P fuel tr op args depth).1 ∧
    (∀ cond t f, (getTakenBlock env P tr (Terminator.condBr cond t f)).1.isSome = true →
       (getIntConst env P tr cond).1.isValid = true) := by
  refine ⟨((getConst_ok fuel).1 env P tr v depth hc).1,
          ((getConst_ok fuel).1 env P tr v depth hc).2,
          ((getConst_ok fuel).2 env P tr op args depth hc).1, ?_⟩
  intro cond t f hsome
  unfold getTakenBlock at hsome
  dsimp only at hsome
  split at hsome
  · rename_i hfc
    exact ((getConst_ok trackerFuel).1 env P tr cond 0 hc).1 hfc
  · simp at hsome

/-- C10 witness: the caller-supplied constant of the switch example is
valid. -/
theorem c10_witness :
    (getIntConst exEnv exPS exTrackerS (Value.arg 1 0)).1.isValid = true := by
  have h := c10_theorem exEnv exPS trackerFuel exTrackerS (Value.arg 1 0)
    (BuiltinOp.otherOp 0) [] 0
    (by intro p hp; simp [exTrackerS, Tracker.st, emptyTrackerState] at hp)
  exact h.1 (by decide)

/-! ## The profitability decision -/

/-- C3 (amended): an always-inline callee is unconditionally profitable
but leaves the running caller-block counter unchanged; any other callee
is profitable iff its walked `CalleeCost` is at most the computed
`Threshold`, and exactly on acceptance the callee's block count is
added to the counter. -/
theorem c3_theorem (env : Env) (P : Program) (ana : Analyses) (cfg : Config)
    (AI : Instruction) (ld : Nat) (callerTr : Tracker) (n : Nat) (Callee : SILFunction)
    (href : refCalleeFunc P AI = some Callee) :
    (Callee.inlineStrategy = InlineStrategy.alwaysInline →
       isProfitableToInline env P ana cfg AI ld callerTr n = (true, n)) ∧
    (¬Callee.inlineStrategy = InlineStrategy.alwaysInline →
       ((isProfitableToInline env P ana cfg AI ld callerTr n).1 = true ↔
          (profRun env P ana cfg AI ld Callee callerTr).cost ≤
            computeThreshold (profRun env P ana cfg AI ld Callee callerTr).testThr
              (callerIsThunk P AI) (profRun env P ana cfg AI ld Callee callerTr).benefit n) ∧
       (isProfitableToInline env P ana cfg AI ld callerTr n).2 =
         (if (profRun env P ana cfg AI ld Callee callerTr).cost ≤
              computeThreshold (profRun env P ana cfg AI ld Callee callerTr).testThr
                (callerIsThunk P AI) (profRun env P ana cfg AI ld Callee callerTr).benefit n
          then n + Callee.blocks.length else n)) := by
  unfold isProfitableToInline
  rw [href]
  dsimp only
  constructor
  · intro hA
    rw [if_pos hA]
  · intro hA
    rw [if_neg hA]
    try dsimp only
    constructor
    · split
      · rename_i hgt
        constructor
        · intro hfalse; exact absurd hfalse (by simp)
        · intro hle; omega
      · rename_i hle
        constructor
        · intro _; omega
        · intro _; rfl
    · split
      · rename_i hgt
        rw [if_neg (by omega)]
      · rename_i hle
        rw [if_pos (by omega)]

/-- C3 counterexample: an always-inline callee with three blocks is
accepted, but the running caller-block counter (5) is returned
unchanged — not increased by the callee's block count as the claim
states for every accepted call site. -/
theorem c3_counterexample :
    isProfitableToInline exEnv exPAlways exAna exCfgTest exApply 0 exCallerTracker 5 =
      (true, 5) ∧
    refCalleeFunc exPAlways exApply = some exCalleeAlways ∧
    exCalleeAlways.inlineStrategy = InlineStrategy.alwaysInline ∧
    exCalleeAlways.blocks.length = 3 ∧ ¬(5 + 3 = 5) := by
  refine ⟨?_, ?_, ?_, ?_, ?_⟩ <;> decide

/-- C3 witness: the amended decision rule applied to the
diamond-callee example. -/
theorem c3_witness :
    (isProfitableToInline exEnv exP exAna exCfgTest exApply 0 exCallerTracker 5).1 = true ↔
      (profRun exEnv exP exAna exCfgTest exApply 0 exCallee exCallerTracker).cost ≤
        computeThreshold
          (profRun exEnv exP exAna exCfgTest exApply 0 exCallee exCallerTracker).testThr
          (callerIsThunk exP exApply)
          (profRun exEnv exP exAna exCfgTest exApply 0 exCallee exCallerTracker).benefit 5 :=
  ((c3_theorem exEnv exP exAna exCfgTest exApply 0 exCallerTracker 5 exCallee
    (by decide)).2 (by decide)).1

/-! ## Lemmas: the profitability walk -/

lemma profItem_trace (env : Env) (P : Program) (ana : Analyses) (F : SILFunction)
    (bId : Nat) (st : ProfState) (x : Sum Instruction Terminator) :
    (profItem env P ana F bId st x).trace = st.trace := by
  cases x
  · simp only [profItem]
    split <;> rfl
  · rfl

lemma profItem_sign (env : Env) (P : Program) (ana : Analyses) (F : SILFunction)
    (bId : Nat) (st : ProfState) (x : Sum Instruction Terminator) :
    ((profItem env P ana F bId st x).testThr ≥ 0 ↔ st.testThr ≥ 0) := by
  cases x
  · simp only [profItem]
    split
    · dsimp only
      omega
    · exact Iff.rfl
  · exact Iff.rfl

lemma profItem_cost (env : Env) (P : Program) (ana : Analyses) (F : SILFunction)
    (bId : Nat) (st : ProfState) (x : Sum Instruction Terminator) {m : Bool}
    (hm : st.testThr ≥ 0 ↔ m = true) :
    (profItem env P ana F bId st x).cost = st.cost + itemCost env m x := by
  have hsel : ∀ a b : Nat, (if st.testThr ≥ 0 then a else b) = (if m = true then a else b) := by
    intro a b
    by_cases h : st.testThr ≥ 0
    · rw [if_pos h, if_pos (hm.1 h)]
    · rw [if_neg h, if_neg fun hm' => h (hm.2 hm')]
  cases x
  · simp only [profItem]
    split
    · dsimp only
      rw [hsel]
      cases m <;> simp [itemCost]
    · dsimp only
      rw [hsel]
      cases m <;> simp [itemCost]
  · simp only [profItem]
    rw [hsel]
    cases m <;> simp [itemCost]

lemma profItems_trace (env : Env) (P : Program) (ana : Analyses) (F : SILFunction)
    (bId : Nat) : ∀ (l : List (Sum Instruction Terminator)) (st : ProfState),
    (profItems env P ana F bId l st).trace = st.trace
  | [], _ => rfl
  | x :: xs, st => by
    rw [profItems, profItems_trace env P ana F bId xs _, profItem_trace]

lemma profItems_sign (env : Env) (P : Program) (ana : Analyses) (F : SILFunction)
    (bId : Nat) : ∀ (l : List (Sum Instruction Terminator)) (st : ProfState),
    ((profItems env P ana F bId l st).testThr ≥ 0 ↔ st.testThr ≥ 0)
  | [], _ => Iff.rfl
  | x :: xs, st =>
    (profItems_sign env P ana F bId xs _).trans (profItem_sign env P ana F bId st x)

lemma profItems_cost (env : Env) (P : Program) (ana : Analyses) (F : SILFunction)
    (bId : Nat) : ∀ (l : List (Sum Instruction Terminator)) (st : ProfState) {m : Bool},
    (st.testThr ≥ 0 ↔ m = true) →
    (profItems env P ana F bId l st).cost = st.cost + (l.map (itemCost env m)).sum
  | [], st, m, _ => by simp [profItems]
  | x :: xs, st, m, hm => by
    rw [profItems,
      profItems_cost env P ana F bId xs _ ((profItem_sign env P ana F bId st x).trans hm),
      profItem_cost env P ana F bId st x hm]
    simp only [List.map_cons, List.sum_cons]
    omega

lemma profBlockBody_trace (env : Env) (P : Program) (ana : Analyses) (F : SILFunction)
    (b : BasicBlock) (st : ProfState) :
    (profBlockBody env P ana F b st).trace = st.trace :=
  profItems_trace env P ana F b.id (blockItems b) _

lemma profBlockBody_sign (env : Env) (P : Program) (ana : Analyses) (F : SILFunction)
    (b : BasicBlock) (st : ProfState) :
    ((profBlockBody env P ana F b st).testThr ≥ 0 ↔ st.testThr ≥ 0) :=
  profItems_sign env P ana F b.id (blockItems b) _

lemma profBlockBody_cost (env : Env) (P : Program) (ana : Analyses) (F : SILFunction)
    (b : BasicBlock) (st : ProfState) {m : Bool} (hm : st.testThr ≥ 0 ↔ m = true) :
    (profBlockBody env P ana F b st).cost = st.cost + blockCostOf env m b :=
  profItems_cost env P ana F b.id (blockItems b) _ hm

lemma profStepState_trace (env : Env) (P : Program) (ana : Analyses) (F : SILFunction)
    (b : BasicBlock) (st : ProfState) :
    (profStepState env P ana F b st).trace = st.trace ++ [(b, stepTaken env P ana F b st)] := by
  show (profBlockBody env P ana F b st).trace ++ _ = _
  rw [profBlockBody_trace]

lemma profWalk_cons (env : Env) (P : Program) (ana : Analyses) (F : SILFunction)
    (fuel : Nat) (b : BasicBlock) (rest : List BasicBlock) (st : ProfState) :
    profWalk env P ana F (fuel + 1) (b :: rest) st =
      profWalk env P ana F fuel (rest ++ pushedChildren ana F b (stepTaken env P ana F b st))
        (profStepState env P ana F b st) := rfl

lemma profWalk_trace_prefix (env : Env) (P : Program) (ana : Analyses) (F : SILFunction) :
    ∀ (fuel : Nat) (q : List BasicBlock) (st : ProfState),
      ∃ Δ, (profWalk env P ana F fuel q st).trace = st.trace ++ Δ
  | 0, _, st => ⟨[], by simp [profWalk]⟩
  | _ + 1, [], st => ⟨[], by simp [profWalk]⟩
  | fuel + 1, b :: rest, st => by
    rw [profWalk_cons]
    obtain ⟨Δ, h⟩ := profWalk_trace_prefix env P ana F fuel
      (rest ++ pushedChildren ana F b (stepTaken env P ana F b st))
      (profStepState env P ana F b st)
    refine ⟨(b, stepTaken env P ana F b st) :: Δ, ?_⟩
    rw [h, profStepState_trace]
    simp

lemma profWalk_spec (env : Env) (P : Program) (ana : Analyses) (F : SILFunction) :
    ∀ (fuel : Nat) (q : List BasicBlock) (st : ProfState) (m : Bool),
      (st.testThr ≥ 0 ↔ m = true) →
      ∃ Δ, (profWalk env P ana F fuel q st).trace = st.trace ++ Δ ∧
        (profWalk env P ana F fuel q st).cost =
          st.cost + ((Δ.map Prod.fst).map (blockCostOf env m)).sum ∧
        ((profWalk env P ana F fuel q st).testThr ≥ 0 ↔ m = true)
  | 0, _, st, m, hm => ⟨[], by simp [profWalk], by simp [profWalk], hm⟩
  | _ + 1, [], st, m, hm => ⟨[], by simp [profWalk], by simp [profWalk], hm⟩
  | fuel + 1, b :: rest, st, m, hm => by
    rw [profWalk_cons]
    have hm1 : ((profStepState env P ana F b st).testThr ≥ 0 ↔ m = true) :=
      (profBlockBody_sign env P ana F b st).trans hm
    obtain ⟨Δ, h1, h2, h3⟩ := profWalk_spec env P ana F fuel
      (rest ++ pushedChildren ana F b (stepTaken env P ana F b st))
      (profStepState env P ana F b st) m hm1
    refine ⟨(b, stepTaken env P ana F b st) :: Δ, ?_, ?_, h3⟩
    · rw [h1, profStepState_trace]
      simp
    · rw [h2]
      have hcost : (profStepState env P ana F b st).cost = st.cost + blockCostOf env m b :=
        profBlockBody_cost env P ana F b st hm
      rw [hcost]
      simp only [List.map_cons, List.sum_cons]
      omega

lemma profWalk_origin (env : Env) (P : Program) (ana : Analyses) (F : SILFunction) :
    ∀ (fuel : Nat) (q : List BasicBlock) (st : ProfState) (c : BasicBlock),
      c ∈ (profWalk env P ana F fuel q st).trace.map Prod.fst →
      c ∈ st.trace.map Prod.fst ∨ c ∈ q ∨
        ∃ b tk, (b, tk) ∈ (profWalk env P ana F fuel q st).trace ∧
          c ∈ pushedChildren ana F b tk
  | 0, _, _, _, h => Or.inl h
  | _ + 1, [], _, _, h => Or.inl h
  | fuel + 1, b :: rest, st, c, h => by
    rw [profWalk_cons] at h ⊢
    rcases profWalk_origin env P ana F fuel
        (rest ++ pushedChildren ana F b (stepTaken env P ana F b st))
        (profStepState env P ana F b st) c h with h1 | h2 | h3
    · rw [profStepState_trace] at h1
      rcases List.mem_map.1 h1 with ⟨e, he, hec⟩
      rcases List.mem_append.1 he with he1 | he2
      · exact Or.inl (List.mem_map.2 ⟨e, he1, hec⟩)
      · rcases List.mem_singleton.1 he2 with rfl
        cases hec
        exact Or.inr (Or.inl (List.mem_cons_self _ _))
    · rcases List.mem_append.1 h2 with hrest | hpush
      · exact Or.inr (Or.inl (List.mem_cons_of_mem _ hrest))
      · refine Or.inr (Or.inr ⟨b, stepTaken env P ana F b st, ?_, hpush⟩)
        obtain ⟨Δ, hpre⟩ := profWalk_trace_prefix env P ana F fuel
          (rest ++ pushedChildren ana F b (stepTaken env P ana F b st))
          (profStepState env P ana F b st)
        rw [hpre, profStepState_trace]
        exact List.mem_append_left _ (List.mem_append_right _ (List.mem_singleton_self _))
    · exact Or.inr (Or.inr h3)

lemma pushedChildren_mem {ana : Analyses} {F : SILFunction} {b : BasicBlock}
    {tk : Option Nat} {c : BasicBlock} (h : c ∈ pushedChildren ana F b tk) :
    c ∈ F.blocks ∧ ana.domParent F.id c.id = some b.id := by
  have hd : c ∈ domChildren ana F b.id := by
    cases tk with
    | none => exact h
    | some t => exact List.mem_of_mem_filter h
  obtain ⟨hmem, hpred⟩ := List.mem_filter.1 hd
  exact ⟨hmem, of_decide_eq_true hpred⟩

lemma pushedChildren_sublist (ana : Analyses) (F : SILFunction) (b : BasicBlock)
    (tk : Option Nat) : (pushedChildren ana F b tk).Sublist F.blocks := by
  cases tk
  · exact List.filter_sublist _
  · exact (List.filter_sublist _).trans (List.filter_sublist _)

lemma pushedChildren_some_mem {ana : Analyses} {F : SILFunction} {b : BasicBlock}
    {t : Nat} {c : BasicBlock} (h : c ∈ pushedChildren ana F b (some t)) :
    ¬singlePredOf c = some b.id ∨ c.id = t :=
  of_decide_eq_true (List.mem_filter.1 h).2

lemma profWalk_nodup (env : Env) (P : Program) (ana : Analyses) (F : SILFunction)
    (rank : Nat → Nat) (rootId : Nat)
    (hids : (F.blocks.map BasicBlock.id).Nodup)
    (hrank : ∀ c p, ana.domParent F.id c = some p → rank p < rank c)
    (hroot : ana.domParent F.id rootId = none) :
    ∀ (fuel : Nat) (q : List BasicBlock) (st : ProfState),
      (∀ b ∈ q, b ∈ F.blocks) →
      (∀ e ∈ st.trace, e.1 ∈ F.blocks) →
      (q.map BasicBlock.id ++ traceIds st).Nodup →
      Inv2 ana F rootId q st →
      (traceIds (profWalk env P ana F fuel q st)).Nodup ∧
      ∀ e ∈ (profWalk env P ana F fuel q st).trace, e.1 ∈ F.blocks
  | 0, q, st, _, htr, hnd, _ => ⟨hnd.of_append_right, htr⟩
  | _ + 1, [], st, _, htr, hnd, _ => ⟨hnd.of_append_right, htr⟩
  | fuel + 1, b :: rest, st, hq, htr, hnd, hinv => by
    rw [profWalk_cons]
    set tk := stepTaken env P ana F b st with htk
    set ps := pushedChildren ana F b tk with hps
    have hbF : b ∈ F.blocks := hq b (List.mem_cons_self _ _)
    have hresub : ∀ x ∈ rest, x ∈ F.blocks := fun x hx => hq x (List.mem_cons_of_mem _ hx)
    have hpsmem : ∀ c ∈ ps, c ∈ F.blocks ∧ ana.domParent F.id c.id = some b.id :=
      fun c hc => pushedChildren_mem hc
    have htrace' : traceIds (profStepState env P ana F b st) = traceIds st ++ [b.id] := by
      unfold traceIds
      rw [profStepState_trace]
      simp
    have hnd' : (rest.map BasicBlock.id ++ traceIds st).Nodup ∧
        b.id ∉ rest.map BasicBlock.id ++ traceIds st := by
      rw [List.map_cons, List.cons_append, List.nodup_cons] at hnd
      exact ⟨hnd.2, hnd.1⟩
    have hfresh : ∀ x ∈ ps.map BasicBlock.id,
        x ∉ rest.map BasicBlock.id ++ traceIds st ∧ ¬x = b.id := by
      intro x hx
      rcases List.mem_map.1 hx with ⟨c, hc, rfl⟩
      obtain ⟨hcF, hcp⟩ := hpsmem c hc
      constructor
      · intro hmem
        have hmem' : c.id ∈ (b :: rest).map BasicBlock.id ++ traceIds st := by
          rcases List.mem_append.1 hmem with h | h
          · refine List.mem_append_left _ ?_
            rw [List.map_cons]
            exact List.mem_cons_of_mem _ h
          · exact List.mem_append_right _ h
        rcases hinv c.id hmem' with hr | ⟨p, hp, hpt⟩
        · rw [hr, hroot] at hcp
          exact absurd hcp (by simp)
        · rw [hcp] at hp
          injection hp with hp'
          subst hp'
          exact hnd'.2 (List.mem_append_right _ hpt)
      · intro hEq
        have hlt := hrank c.id b.id hcp
        rw [hEq] at hlt
        exact lt_irrefl _ hlt
    have hpsnd : (ps.map BasicBlock.id).Nodup :=
      List.Nodup.sublist (List.Sublist.map _ (pushedChildren_sublist ana F b tk)) hids
    have hndNew : ((rest ++ ps).map BasicBlock.id ++
        traceIds (profStepState env P ana F b st)).Nodup := by
      rw [htrace', List.map_append]
      refine List.Nodup.append ?_ ?_ ?_
      · refine List.Nodup.append hnd'.1.of_append_left hpsnd ?_
        intro a ha hb
        exact (hfresh a hb).1 (List.mem_append_left _ ha)
      · refine List.Nodup.append hnd'.1.of_append_right (by simp) ?_
        intro a ha hb
        rcases List.mem_singleton.1 hb with rfl
        exact hnd'.2 (List.mem_append_right _ ha)
      · intro a ha hb
        rcases List.mem_append.1 ha with ha1 | ha2
        · rcases List.mem_append.1 hb with hb1 | hb2
          · exact List.disjoint_of_nodup_append hnd'.1 ha1 hb1
          · rcases List.mem_singleton.1 hb2 with rfl
            exact hnd'.2 (List.mem_append_left _ ha1)
        · rcases List.mem_append.1 hb with hb1 | hb2
          · exact (hfresh a ha2).1 (List.mem_append_right _ hb1)
          · rcases List.mem_singleton.1 hb2 with rfl
            exact (hfresh _ ha2).2 rfl
    have hinvNew : Inv2 ana F rootId (rest ++ ps) (profStepState env P ana F b st) := by
      intro x hx
      rw [htrace'] at hx ⊢
      rw [List.map_append] at hx
      rcases List.mem_append.1 hx with hx1 | hx2
      · rcases List.mem_append.1 hx1 with hxr | hxp
        · have hx' : x ∈ (b :: rest).map BasicBlock.id ++ traceIds st := by
            refine List.mem_append_left _ ?_
            rw [List.map_cons]
            exact List.mem_cons_of_mem _ hxr
          rcases hinv x hx' with h | ⟨p, hp, hpt⟩
          · exact Or.inl h
          · exact Or.inr ⟨p, hp, List.mem_append_left _ hpt⟩
        · rcases List.mem_map.1 hxp with ⟨c, hc, rfl⟩
          exact Or.inr ⟨b.id, (hpsmem c hc).2,
            List.mem_append_right _ (List.mem_singleton_self _)⟩
      · rcases List.mem_append.1 hx2 with hxt | hxb
        · rcases hinv x (List.mem_append_right _ hxt) with h | ⟨p, hp, hpt⟩
          · exact Or.inl h
          · exact Or.inr ⟨p, hp, List.mem_append_left _ hpt⟩
        · rcases List.mem_singleton.1 hxb with rfl
          have hx' : b.id ∈ (b :: rest).map BasicBlock.id ++ traceIds st := by
            refine List.mem_append_left _ ?_
            rw [List.map_cons]
            exact List.mem_cons_self _ _
          rcases hinv b.id hx' with h | ⟨p, hp, hpt⟩
          · exact Or.inl h
          · exact Or.inr ⟨p, hp, List.mem_append_left _ hpt⟩
    have htrNew : ∀ e ∈ (profStepState env P ana F b st).trace, e.1 ∈ F.blocks := by
      intro e he
      rw [profStepState_trace] at he
      rcases List.mem_append.1 he with h | h
      · exact htr e h
      · rcases List.mem_singleton.1 h with rfl
        exact hbF
    have hqNew : ∀ x ∈ rest ++ ps, x ∈ F.blocks := by
      intro x hx
      rcases List.mem_append.1 hx with h | h
      · exact hresub x h
      · exact (hpsmem x h).1
    exact profWalk_nodup env P ana F rank rootId hids hrank hroot fuel (rest ++ ps)
      (profStepState env P ana F b st) hqNew htrNew hndNew hinvNew

/-- C1 (amended): `CalleeCost` is exactly the summed cost of the blocks
in the visit trace; and when the terminator of a finished block `b`
folds to taken successor `t`, a dominator-tree child of `b` is *pruned*
(never visited, so its instructions are excluded from `CalleeCost`)
precisely when its sole predecessor is `b` and it is not `t` — the
converse of the claim's visiting rule.  The hypotheses say the dominance
analysis yields a well-formed tree: block identities are unique, the
parent relation is well-founded (witnessed by `rank`), and the entry
block has no parent. -/
theorem c1_theorem (env : Env) (P : Program) (ana : Analyses) (cfg : Config)
    (AI : Instruction) (ld : Nat) (Callee : SILFunction) (callerTr : Tracker)
    (rank : Nat → Nat)
    (hids : (Callee.blocks.map BasicBlock.id).Nodup)
    (hrank : ∀ c p, ana.domParent Callee.id c = some p → rank p < rank c)
    (hroot : ana.domParent Callee.id (rootIdOf Callee) = none) :
    ((profRun env P ana cfg AI ld Callee callerTr).cost =
      (((profRun env P ana cfg AI ld Callee callerTr).trace.map Prod.fst).map
        (blockCostOf env (decide (cfg.testThreshold ≥ 0)))).sum) ∧
    (∀ (b : BasicBlock) (t : Nat) (c : BasicBlock),
      (b, some t) ∈ (profRun env P ana cfg AI ld Callee callerTr).trace →
      ana.domParent Callee.id c.id = some b.id →
      singlePredOf c = some b.id → ¬c.id = t →
      c ∉ (profRun env P ana cfg AI ld Callee callerTr).trace.map Prod.fst) := by
  have hrun : profRun env P ana cfg AI ld Callee callerTr =
      profWalk env P ana Callee (Callee.blocks.length + 1) (calleeEntryQueue Callee)
        ⟨Tracker.chained Callee.id emptyTrackerState AI callerTr, 0,
         initialBenefit cfg ld, cfg.testThreshold, []⟩ := rfl
  have hm : ((⟨Tracker.chained Callee.id emptyTrackerState AI callerTr, 0,
      initialBenefit cfg ld, cfg.testThreshold, []⟩ : ProfState).testThr ≥ 0 ↔
      decide (cfg.testThreshold ≥ 0) = true) := by
    simp [decide_eq_true_eq]
  obtain ⟨Δ, h1, h2, -⟩ := profWalk_spec env P ana Callee (Callee.blocks.length + 1)
    (calleeEntryQueue Callee)
    ⟨Tracker.chained Callee.id emptyTrackerState AI callerTr, 0,
     initialBenefit cfg ld, cfg.testThreshold, []⟩ (decide (cfg.testThreshold ≥ 0)) hm
  have hq0 : ∀ x ∈ calleeEntryQueue Callee, x ∈ Callee.blocks := by
    intro x hx
    cases hblocks : Callee.blocks with
    | nil => simp [calleeEntryQueue, hblocks] at hx
    | cons r rest =>
      rw [calleeEntryQueue, hblocks] at hx
      rcases List.mem_singleton.1 hx with rfl
      exact List.mem_cons_self _ _
  have hnd0 : ((calleeEntryQueue Callee).map BasicBlock.id ++
      traceIds (⟨Tracker.chained Callee.id emptyTrackerState AI callerTr, 0,
        initialBenefit cfg ld, cfg.testThreshold, []⟩ : ProfState)).Nodup := by
    cases hblocks : Callee.blocks <;> simp [calleeEntryQueue, hblocks, traceIds]
  have hinv0 : Inv2 ana Callee (rootIdOf Callee)
      (calleeEntryQueue Callee)
      (⟨Tracker.chained Callee.id emptyTrackerState AI callerTr, 0,
        initialBenefit cfg ld, cfg.testThreshold, []⟩ : ProfState) := by
    intro x hx
    left
    cases hblocks : Callee.blocks with
    | nil => simp [calleeEntryQueue, hblocks, traceIds] at hx
    | cons r rest =>
      simp [calleeEntryQueue, hblocks, traceIds] at hx
      rw [hx, rootIdOf, hblocks]
  obtain ⟨hndF, htrF⟩ := profWalk_nodup env P ana Callee rank (rootIdOf Callee) hids hrank
    hroot (Callee.blocks.length + 1) (calleeEntryQueue Callee)
    ⟨Tracker.chained Callee.id emptyTrackerState AI callerTr, 0,
     initialBenefit cfg ld, cfg.testThreshold, []⟩ hq0 (by simp) hnd0 hinv0
  constructor
  · rw [hrun, h2, h1]
    simp
  · intro b t c hbt hpar hsp hne hcmem
    rw [hrun] at hbt hcmem
    rcases profWalk_origin env P ana Callee (Callee.blocks.length + 1)
        (calleeEntryQueue Callee)
        ⟨Tracker.chained Callee.id emptyTrackerState AI callerTr, 0,
         initialBenefit cfg ld, cfg.testThreshold, []⟩ c hcmem with h0 | hq | hpush
    · simp at h0
    · cases hblocks : Callee.blocks with
      | nil => simp [calleeEntryQueue, hblocks] at hq
      | cons r rest =>
        rw [calleeEntryQueue, hblocks] at hq
        rcases List.mem_singleton.1 hq with rfl
        have hrid : rootIdOf Callee = c.id := by rw [rootIdOf, hblocks]
        rw [hrid, hpar] at hroot
        exact absurd hroot (by simp)
    · obtain ⟨b', tk', hb't, hcpush⟩ := hpush
      have hb'par : ana.domParent Callee.id c.id = some b'.id :=
        (pushedChildren_mem hcpush).2
      have hbid : b'.id = b.id := by
        rw [hpar] at hb'par
        injection hb'par with h
        exact h.symm
      have hinj := List.inj_on_of_nodup_map hndF
      have heq : (b', tk') = (b, some t) := hinj hb't hbt (by simpa using hbid)
      have hb'b : b' = b := congrArg Prod.fst heq
      have htk : tk' = some t := congrArg Prod.snd heq
      rw [hb'b, htk] at hcpush
      rcases pushedChildren_some_mem hcpush with h | h
      · exact h hsp
      · exact hne h

/-- C1 counterexample: in the diamond-with-merge callee, the entry
block's conditional branch folds (taken successor 11), yet the
dominator-tree child 12 — whose sole predecessor is *not* the finished
block 10 (it has two predecessors), and which is not the taken
successor — *is* visited, and as the not-taken successor of the folded
branch its builtin instruction is counted in `CalleeCost` (the total
cost is 1, that instruction's test cost).  The claim's visiting rule
and its cost-exclusion consequence are both violated. -/
theorem c1_counterexample :
    (exB0, some 11) ∈ (profRun exEnv exP exAna exCfgTest exApply 0 exCallee
      exCallerTracker).trace ∧
    exB2 ∈ (profRun exEnv exP exAna exCfgTest exApply 0 exCallee
      exCallerTracker).trace.map Prod.fst ∧
    exAna.domParent exCallee.id exB2.id = some exB0.id ∧
    ¬singlePredOf exB2 = some exB0.id ∧
    ¬exB2.id = 11 ∧
    (profRun exEnv exP exAna exCfgTest exApply 0 exCallee exCallerTracker).cost = 1 ∧
    blockCostOf exEnv true exB2 = 1 := by
  refine ⟨?_, ?_, ?_, ?_, ?_, ?_, ?_⟩ <;> decide

/-- C1 witness: the amended pruning rule applied to the variant callee
in which block 12's sole predecessor is the branch block 10 — the
not-taken successor is indeed never visited. -/
theorem c1_witness :
    exB2w ∉ (profRun exEnv exPW exAna exCfgTest exApply 0 exCalleeW
      exCallerTracker).trace.map Prod.fst :=
  (c1_theorem exEnv exPW exAna exCfgTest exApply 0 exCalleeW exCallerTracker
      (fun x => x) (by decide)
      (by
        intro c p h
        show p < c
        have h' : (if c = 11 then some 10 else if c = 12 then some 10 else none) =
            some p := by simpa [exAna, exCalleeW] using h
        by_cases h11 : c = 11
        · rw [if_pos h11] at h'
          injection h' with h''
          omega
        · rw [if_neg h11] at h'
          by_cases h12 : c = 12
          · rw [if_pos h12] at h'
            injection h' with h''
            omega
          · rw [if_neg h12] at h'
            exact absurd h' (by simp))
      (by decide)).2
    exB0 11 exB2w (by decide) (by decide) (by decide) (by decide)

end PerfInliner
